import Mathlib

/-!
Formal model of the cc-sync synchronization core, shallowly embedded in Lean.

The definitions below are transcribed from the TypeScript sources:
  * `packages/convex-backend/convex/sync.ts` (pushSync, pullSync, subscribeToChanges)
  * the conflict-resolution module (mergeJSON, mergeJSONL, resolveConflict)
  * `apps/cli/src/sync-utils.ts` (inventory scan: getRecentFiles, getRecentSessions)
  * `apps/cli/src/sync-engine.ts` (the change scheduler: queueChange, trySync, performSync)

Platform functions (JSON.parse / JSON.stringify, Array.prototype.sort, Blob byte
size) are modelled explicitly.  JSON numbers are restricted to decimal integers
(the repository only ever stores integer ids and millisecond timestamps); the
JavaScript sort is modelled as a stable insertion sort, which agrees with the
ECMAScript stable sort whenever the comparator is consistent.
-/

/-! ## JavaScript-level primitives -/

/-- UTF-8 byte length of a string, the value of `new Blob([s]).size`. -/
def jsByteLength (s : String) : Nat :=
  s.data.foldl (fun n c => n + c.utf8Size) 0

/-- The value of `s.endsWith(suffix)`, computed structurally on the character
lists. -/
def jsEndsWith (s suffix : String) : Bool :=
  suffix.data.isSuffixOf s.data

/-- The value of `s.startsWith(p)`, computed structurally on the character
lists. -/
def jsStartsWith (s p : String) : Bool :=
  p.data.isPrefixOf s.data

def splitOnCharAux (sep : Char) : List Char → List Char → List String
  | [], acc => [String.mk acc.reverse]
  | c :: cs, acc =>
    if c = sep then String.mk acc.reverse :: splitOnCharAux sep cs []
    else splitOnCharAux sep cs (c :: acc)

/-- The value of `s.split(sep)` for a one-character separator. -/
def splitOnChar (sep : Char) (s : String) : List String :=
  splitOnCharAux sep s.data []

/-- Stable insertion of one element into a comparator-sorted list: the element
goes after every element that compares less-or-equal, mirroring the placement a
stable ECMAScript sort gives it. -/
def insCmp (cmp : α → α → Int) (x : α) : List α → List α
  | [] => [x]
  | y :: ys => if cmp y x ≤ 0 then y :: insCmp cmp x ys else x :: y :: ys

/-- Stable sort by a JavaScript-style comparator (negative means first argument
first).  For consistent comparators this is the unique stable sort, hence the
behaviour of `Array.prototype.sort`. -/
def sortCmp (cmp : α → α → Int) (xs : List α) : List α :=
  xs.foldl (fun acc x => insCmp cmp x acc) []

/-- JSON values as produced by `JSON.parse`, with numbers restricted to
integers (the repository only stores integer ids and millisecond timestamps). -/
inductive JsonV where
  | null
  | bool (b : Bool)
  | num (n : Int)
  | str (s : String)
  | arr (elems : List JsonV)
  | obj (fields : List (String × JsonV))
deriving Repr

mutual
/-- Structural equality test on JSON values; used to model Map key equality
(SameValueZero) for the primitive keys the code actually produces. -/
def jsonBeq : JsonV → JsonV → Bool
  | JsonV.null, JsonV.null => true
  | JsonV.bool a, JsonV.bool b => a == b
  | JsonV.num a, JsonV.num b => a == b
  | JsonV.str a, JsonV.str b => a == b
  | JsonV.arr a, JsonV.arr b => jsonBeqList a b
  | JsonV.obj a, JsonV.obj b => jsonBeqFields a b
  | _, _ => false

def jsonBeqList : List JsonV → List JsonV → Bool
  | [], [] => true
  | x :: xs, y :: ys => jsonBeq x y && jsonBeqList xs ys
  | _, _ => false

def jsonBeqFields : List (String × JsonV) → List (String × JsonV) → Bool
  | [], [] => true
  | (k1, v1) :: xs, (k2, v2) :: ys => k1 == k2 && jsonBeq v1 v2 && jsonBeqFields xs ys
  | _, _ => false
end

/-- Look up a field in a JavaScript object (first binding; parsed objects carry
at most one binding per key). -/
def objFind : List (String × JsonV) → String → Option JsonV
  | [], _ => none
  | (a, b) :: ps, k => if a == k then some b else objFind ps k

/-- Key-presence test on an object. -/
def objHasKey : List (String × JsonV) → String → Bool
  | [], _ => false
  | (a, _) :: ps, k => (a == k) || objHasKey ps k

/-- JavaScript property assignment on an object literal: an existing key keeps
its position but gets the new value; a fresh key is appended. -/
def objInsert (fs : List (String × JsonV)) (k : String) (v : JsonV) :
    List (String × JsonV) :=
  if objHasKey fs k then
    fs.map (fun p => if p.1 == k then (k, v) else p)
  else
    fs ++ [(k, v)]

/-- Accumulate a list of key-value pairs into a JavaScript object, later
duplicates overwriting earlier ones in place. -/
def objOfPairs (ps : List (String × JsonV)) : List (String × JsonV) :=
  ps.foldl (fun acc p => objInsert acc p.1 p.2) []

/-! ## A model of JSON.parse (numbers restricted to decimal integers) -/

/-- Whitespace skipping as in the JSON grammar. -/
def skipWs : List Char → List Char
  | c :: cs => if c = ' ' ∨ c = '\n' ∨ c = '\t' ∨ c = '\r' then skipWs cs else c :: cs
  | [] => []

/-- Decode one escape character inside a JSON string literal. -/
def escChar : Char → Option Char
  | 'n' => some '\n'
  | 't' => some '\t'
  | 'r' => some '\r'
  | 'b' => some (Char.ofNat 8)
  | 'f' => some (Char.ofNat 12)
  | '"' => some '"'
  | '\\' => some '\\'
  | '/' => some '/'
  | _ => none

/-- Parse the body of a JSON string literal (after the opening quote), up to
and including the closing quote. -/
def parseStrChars : List Char → Option (List Char × List Char)
  | [] => none
  | '"' :: rest => some ([], rest)
  | '\\' :: rest =>
    match rest with
    | [] => none
    | e :: rest2 =>
      match escChar e, parseStrChars rest2 with
      | some c, some (cs, r) => some (c :: cs, r)
      | _, _ => none
  | c :: rest =>
    if c.toNat < 32 then none
    else
      match parseStrChars rest with
      | some (cs, r) => some (c :: cs, r)
      | none => none

/-- Digits to a natural number. -/
def digitsToNat (ds : List Char) : Nat :=
  ds.foldl (fun n c => n * 10 + (c.toNat - 48)) 0

/-- Parse a JSON integer literal (optional minus sign, no leading zeros). -/
def parseNumTok (cs : List Char) : Option (JsonV × List Char) :=
  let signSplit : Bool × List Char :=
    match cs with
    | '-' :: t => (true, t)
    | _ => (false, cs)
  let neg := signSplit.1
  let cs1 := signSplit.2
  let ds := cs1.takeWhile Char.isDigit
  let rest := cs1.dropWhile Char.isDigit
  if ds.isEmpty then none
  else if ds.length > 1 ∧ ds.head? = some '0' then none
  else
    let n : Int := Int.ofNat (digitsToNat ds)
    some (JsonV.num (if neg then -n else n), rest)

mutual
/-- Fuel-indexed JSON value parser (one token of lookahead, recursive descent). -/
def parseVal : Nat → List Char → Option (JsonV × List Char)
  | 0, _ => none
  | Nat.succ fuel, cs =>
    match skipWs cs with
    | 'n' :: 'u' :: 'l' :: 'l' :: r => some (JsonV.null, r)
    | 't' :: 'r' :: 'u' :: 'e' :: r => some (JsonV.bool true, r)
    | 'f' :: 'a' :: 'l' :: 's' :: 'e' :: r => some (JsonV.bool false, r)
    | '"' :: r =>
      match parseStrChars r with
      | some (cs2, r2) => some (JsonV.str (String.mk cs2), r2)
      | none => none
    | '[' :: r =>
      match skipWs r with
      | ']' :: r2 => some (JsonV.arr [], r2)
      | r2 =>
        match parseElems fuel r2 with
        | some (xs, r3) => some (JsonV.arr xs, r3)
        | none => none
    | '\x7b' :: r =>
      match skipWs r with
      | '\x7d' :: r2 => some (JsonV.obj [], r2)
      | r2 =>
        match parseFields fuel r2 with
        | some (ps, r3) => some (JsonV.obj (objOfPairs ps), r3)
        | none => none
    | c :: r =>
      if c = '-' ∨ c.isDigit then parseNumTok (c :: r) else none
    | [] => none

/-- Parse one-or-more comma-separated array elements, up to the closing bracket. -/
def parseElems : Nat → List Char → Option (List JsonV × List Char)
  | 0, _ => none
  | Nat.succ fuel, cs =>
    match parseVal fuel cs with
    | some (v, r) =>
      match skipWs r with
      | ',' :: r2 =>
        match parseElems fuel r2 with
        | some (xs, r3) => some (v :: xs, r3)
        | none => none
      | ']' :: r2 => some ([v], r2)
      | _ => none
    | none => none

/-- Parse one-or-more comma-separated object members, up to the closing brace. -/
def parseFields : Nat → List Char → Option (List (String × JsonV) × List Char)
  | 0, _ => none
  | Nat.succ fuel, cs =>
    match skipWs cs with
    | '"' :: r =>
      match parseStrChars r with
      | some (kcs, r2) =>
        match skipWs r2 with
        | ':' :: r3 =>
          match parseVal fuel r3 with
          | some (v, r4) =>
            match skipWs r4 with
            | ',' :: r5 =>
              match parseFields fuel r5 with
              | some (ps, r6) => some ((String.mk kcs, v) :: ps, r6)
              | none => none
            | '\x7d' :: r5 => some ([(String.mk kcs, v)], r5)
            | _ => none
          | none => none
        | _ => none
      | none => none
    | _ => none
end

/-- Model of `JSON.parse`: the whole input must be consumed (modulo trailing
whitespace); returns `none` exactly when `JSON.parse` throws. -/
def parseJSON (s : String) : Option JsonV :=
  match parseVal (2 * s.length + 2) s.data with
  | some (v, r) => if (skipWs r).isEmpty then some v else none
  | none => none

/-! ## A model of JSON.stringify -/

/-- Escape one character for inclusion in a JSON string literal. -/
def escapeChar (c : Char) : String :=
  if c = '"' then "\\\""
  else if c = '\\' then "\\\\"
  else if c = '\n' then "\\n"
  else if c = '\t' then "\\t"
  else if c = '\r' then "\\r"
  else String.singleton c

/-- Render a JSON string literal with quotes. -/
def quoteStr (s : String) : String :=
  "\"" ++ String.join (s.data.map escapeChar) ++ "\""

mutual
/-- Compact rendering, the value of `JSON.stringify(v)`. -/
def stringifyCompact : JsonV → String
  | JsonV.null => "null"
  | JsonV.bool true => "true"
  | JsonV.bool false => "false"
  | JsonV.num n => toString n
  | JsonV.str s => quoteStr s
  | JsonV.arr xs => "[" ++ stringifyCompactList xs ++ "]"
  | JsonV.obj fs => "\x7b" ++ stringifyCompactFields fs ++ "\x7d"

def stringifyCompactList : List JsonV → String
  | [] => ""
  | [x] => stringifyCompact x
  | x :: xs => stringifyCompact x ++ "," ++ stringifyCompactList xs

def stringifyCompactFields : List (String × JsonV) → String
  | [] => ""
  | [(k, v)] => quoteStr k ++ ":" ++ stringifyCompact v
  | (k, v) :: fs => quoteStr k ++ ":" ++ stringifyCompact v ++ "," ++ stringifyCompactFields fs
end

mutual
/-- Pretty rendering with a two-space indent, the value of
`JSON.stringify(v, null, 2)`; `ind` is the indentation of the enclosing value. -/
def stringifyPretty (ind : String) : JsonV → String
  | JsonV.arr [] => "[]"
  | JsonV.arr xs =>
    "[\n" ++ stringifyPrettyList (ind ++ "  ") xs ++ "\n" ++ ind ++ "]"
  | JsonV.obj [] => "\x7b\x7d"
  | JsonV.obj fs =>
    "\x7b\n" ++ stringifyPrettyFields (ind ++ "  ") fs ++ "\n" ++ ind ++ "\x7d"
  | v => stringifyCompact v

def stringifyPrettyList (ind : String) : List JsonV → String
  | [] => ""
  | [x] => ind ++ stringifyPretty ind x
  | x :: xs => ind ++ stringifyPretty ind x ++ ",\n" ++ stringifyPrettyList ind xs

def stringifyPrettyFields (ind : String) : List (String × JsonV) → String
  | [] => ""
  | [(k, v)] => ind ++ quoteStr k ++ ": " ++ stringifyPretty ind v
  | (k, v) :: fs =>
    ind ++ quoteStr k ++ ": " ++ stringifyPretty ind v ++ ",\n" ++ stringifyPrettyFields ind fs
end

/-! ## JavaScript value helpers used by the merge functions -/

/-- JavaScript truthiness of a JSON value. -/
def truthy : JsonV → Bool
  | JsonV.null => false
  | JsonV.bool b => b
  | JsonV.num n => n != 0
  | JsonV.str s => s ≠ ""
  | JsonV.arr _ => true
  | JsonV.obj _ => true

/-- Property access `v.name`: a field of an object, `undefined` (none)
otherwise (JavaScript yields undefined for properties of non-null primitives,
arrays and missing keys). -/
def jsField (v : JsonV) (name : String) : Option JsonV :=
  match v with
  | JsonV.obj fs => objFind fs name
  | _ => none

/-- The value of `typeof v === "object"` (true for objects, arrays and null). -/
def jsTypeofObj : JsonV → Bool
  | JsonV.obj _ => true
  | JsonV.arr _ => true
  | JsonV.null => true
  | _ => false

/-- The value of `v.timestamp || 0`, restricted to integer timestamps
(non-numeric timestamps are modelled as 0). -/
def tsOrZero (v : JsonV) : Int :=
  match jsField v "timestamp" with
  | some (JsonV.num n) => n
  | _ => 0

/-- The value of `obj.timestamp && obj.timestamp > (existing.timestamp || 0)`:
the incoming record must carry a truthy numeric timestamp strictly greater
than the stored one. -/
def tsTruthyGt (v existing : JsonV) : Bool :=
  match jsField v "timestamp" with
  | some t => truthy t && (match t with
      | JsonV.num n => decide (n > tsOrZero existing)
      | _ => false)
  | none => false

/-- The first truthy option, mirroring a JavaScript chain of `||`. -/
def firstTruthy (o : Option JsonV) : Option JsonV :=
  match o with
  | some x => if truthy x then some x else none
  | none => none

/-- The Map key `obj.id || obj.uuid || obj.timestamp || line` used by the
line-record merge. -/
def jsIdKeyV (v : JsonV) (line : String) : JsonV :=
  match firstTruthy (jsField v "id") with
  | some k => k
  | none =>
    match firstTruthy (jsField v "uuid") with
    | some k => k
    | none =>
      match firstTruthy (jsField v "timestamp") with
      | some k => k
      | none => JsonV.str line

/-! ## JavaScript Map over JSON keys (insertion-ordered association list) -/

def mapGet : List (JsonV × JsonV) → JsonV → Option JsonV
  | [], _ => none
  | (a, b) :: ps, k => if jsonBeq a k then some b else mapGet ps k

def mapHas (m : List (JsonV × JsonV)) (k : JsonV) : Bool :=
  (mapGet m k).isSome

/-- Map.set: an existing key keeps its position and gets the new value, a
fresh key is appended (insertion order); the maps the merge builds never
carry a key twice. -/
def mapSet : List (JsonV × JsonV) → JsonV → JsonV → List (JsonV × JsonV)
  | [], k, v => [(k, v)]
  | (a, b) :: ps, k, v =>
    if jsonBeq a k then (k, v) :: ps else (a, b) :: mapSet ps k v

/-! ## mergeJSON and mergeJSONL, from the conflict-resolution module -/

/-- Fields contributed by spreading a JSON value into an object literal
(`{...v}`): the fields of an object, indexed characters of a string, indexed
elements of an array, nothing for other primitives. -/
def spreadFields : JsonV → List (String × JsonV)
  | JsonV.obj fs => fs
  | JsonV.str s => s.data.enum.map (fun p => (toString p.1, JsonV.str (String.singleton p.2)))
  | JsonV.arr xs => xs.enum.map (fun p => (toString p.1, p.2))
  | _ => []

/-- The object produced by the literal `{...objA, ...objB}`. -/
def spreadMerge (a b : JsonV) : List (String × JsonV) :=
  (spreadFields a ++ spreadFields b).foldl (fun acc p => objInsert acc p.1 p.2) []

/-- Transcription of `mergeJSON`: parse both sides, shallow-merge with the B
side taking precedence, pretty-print with indent 2; on a parse failure fall
back to a conflict-marker concatenation. -/
def mergeJSON (contentA contentB : String) : String :=
  match parseJSON contentA, parseJSON contentB with
  | some objA, some objB => stringifyPretty "" (JsonV.obj (spreadMerge objA objB))
  | _, _ =>
    "<<<<<<< VERSION A\n" ++ contentA ++ "\n=======\n" ++ contentB ++ "\n>>>>>>> VERSION B"

/-- The non-empty lines of one side (`content.split("\n").filter(Boolean)`). -/
def nonEmptyLines (s : String) : List String :=
  (splitOnChar '\n' s).filter (fun l => l ≠ "")

/-- One iteration of the mergeJSONL loop.  A line that parses to `null` throws
a TypeError at the `obj.id` access, landing in the same catch branch as a
non-parsing line; both store the raw line under its own text as key. -/
def jsonlStep (m : List (JsonV × JsonV)) (line : String) : List (JsonV × JsonV) :=
  match parseJSON line with
  | some v =>
    if jsonBeq v JsonV.null then mapSet m (JsonV.str line) (JsonV.str line)
    else
      let k := jsIdKeyV v line
      if mapHas m k then
        match mapGet m k with
        | some existing => if tsTruthyGt v existing then mapSet m k v else m
        | none => m
      else mapSet m k v
  | none => mapSet m (JsonV.str line) (JsonV.str line)

/-- The comparator passed to `.sort` by mergeJSONL. -/
def jsonlCmp (a b : JsonV) : Int :=
  if jsTypeofObj a && jsTypeofObj b then tsOrZero a - tsOrZero b else 0

/-- Rendering of one surviving Map value: raw lines (and decoded JSON strings)
verbatim, everything else via JSON.stringify. -/
def serializeItem : JsonV → String
  | JsonV.str s => s
  | v => stringifyCompact v

/-- The deduplication Map after processing all lines of both sides. -/
def jsonlMap (contentA contentB : String) : List (JsonV × JsonV) :=
  (nonEmptyLines contentA ++ nonEmptyLines contentB).foldl jsonlStep []

/-- The surviving values, sorted by the timestamp comparator. -/
def mergeJSONLItems (contentA contentB : String) : List JsonV :=
  sortCmp jsonlCmp ((jsonlMap contentA contentB).map (fun p => p.2))

/-- The output lines of mergeJSONL, one serialized record per line. -/
def mergeJSONLLines (contentA contentB : String) : List String :=
  (mergeJSONLItems contentA contentB).map serializeItem

/-- Transcription of `mergeJSONL`: split both sides into non-empty lines,
deduplicate by id/uuid/timestamp (falling back to the raw line), keep the
record with the larger timestamp on key collisions, sort survivors by
timestamp and join them back one per line. -/
def mergeJSONL (contentA contentB : String) : String :=
  String.intercalate "\n" (mergeJSONLLines contentA contentB)

/-! ## Server state, from the Convex schema used by sync.ts -/

/-- One file of a push request (`args.files` element). -/
structure SyncFile where
  filePath : String
  content : String
  contentHash : String
  lastModified : Int
deriving Repr, DecidableEq

inductive FileTable
  | configFiles
  | sessionFiles
deriving Repr, DecidableEq

structure FileCategory where
  table : FileTable
  sessionId : Option String
  fileType : Option String
deriving Repr, DecidableEq

/-- The value of `filePath.split("/")[1]?.split("-")[0] || "unknown"`. -/
def todosSessionId (p : String) : String :=
  match (splitOnChar '/' p).get? 1 with
  | some seg =>
    let first := ((splitOnChar '-' seg).headD "")
    if first = "" then "unknown" else first
  | none => "unknown"

/-- The value of `filePath.split("/")[1] || "unknown"`. -/
def envSessionId (p : String) : String :=
  match (splitOnChar '/' p).get? 1 with
  | some seg => if seg = "" then "unknown" else seg
  | none => "unknown"

/-- Transcription of `categorizeFile` from sync.ts. -/
def categorizeFile (filePath : String) : FileCategory :=
  if jsEndsWith filePath ".md" || filePath == "settings.json" || filePath == "history.jsonl"
      || jsStartsWith filePath "commands/" || jsStartsWith filePath "plugins/"
      || jsStartsWith filePath "agents/" then
    ⟨FileTable.configFiles, none, none⟩
  else if jsStartsWith filePath "todos/" then
    ⟨FileTable.sessionFiles, some (todosSessionId filePath), some "todo"⟩
  else if jsStartsWith filePath "session-env/" then
    ⟨FileTable.sessionFiles, some (envSessionId filePath), some "session-env"⟩
  else ⟨FileTable.configFiles, none, none⟩

/-- A stored catalog entry (row of configFiles or sessionFiles). -/
structure CatalogEntry where
  id : Nat
  userId : Nat
  deviceId : String
  filePath : String
  content : String
  contentHash : String
  lastModified : Int
  version : Nat
  syncedAt : Int
  sessionId : Option String := none
  fileType : Option String := none
deriving Repr, DecidableEq

/-- A syncConflicts row. -/
structure ConflictRec where
  id : Nat
  userId : Nat
  filePath : String
  deviceAId : String
  deviceBId : String
  contentA : String
  contentB : String
  createdAt : Int
  resolvedAt : Option Int := none
  resolution : Option String := none
deriving Repr, DecidableEq

/-- A user row (the fields sync.ts touches). -/
structure UserRec where
  id : Nat
  storageUsed : Int
  storageLimit : Int
  lastSyncAt : Int
deriving Repr, DecidableEq

/-- The persistent state visible to the sync functions.  The apiKeys table
stands for the hashed, unrevoked key records consulted by
`validateApiKeyInternal`; `nextId` models the allocator of database ids. -/
structure ServerState where
  users : List UserRec
  apiKeys : List (String × Nat)
  configFiles : List CatalogEntry
  sessionFiles : List CatalogEntry
  syncConflicts : List ConflictRec
  nextId : Nat
deriving Repr, DecidableEq

/-- Transcription of `validateApiKeyInternal`: resolve the bearer key to a
user record, `none` for an invalid or revoked key. -/
def validateApiKey (st : ServerState) (apiKey : String) : Option UserRec :=
  match st.apiKeys.lookup apiKey with
  | some uid => st.users.find? (fun u => u.id == uid)
  | none => none

def tableOf (st : ServerState) : FileTable → List CatalogEntry
  | FileTable.configFiles => st.configFiles
  | FileTable.sessionFiles => st.sessionFiles

/-- The `by_user_and_path` index lookup (`.first()`). -/
def findExisting (st : ServerState) (t : FileTable) (userId : Nat) (filePath : String) :
    Option CatalogEntry :=
  (tableOf st t).find? (fun e => e.userId == userId && e.filePath == filePath)

def patchEntryIn (l : List CatalogEntry) (id : Nat) (f : CatalogEntry → CatalogEntry) :
    List CatalogEntry :=
  l.map (fun e => if e.id == id then f e else e)

def patchTable (st : ServerState) (t : FileTable) (id : Nat) (f : CatalogEntry → CatalogEntry) :
    ServerState :=
  match t with
  | FileTable.configFiles => { st with configFiles := patchEntryIn st.configFiles id f }
  | FileTable.sessionFiles => { st with sessionFiles := patchEntryIn st.sessionFiles id f }

/-- `ctx.db.insert` into one of the two file tables, returning the fresh id
through the constructor argument. -/
def insertInto (st : ServerState) (t : FileTable) (mk : Nat → CatalogEntry) : ServerState :=
  let e := mk st.nextId
  match t with
  | FileTable.configFiles =>
    { st with configFiles := st.configFiles ++ [e], nextId := st.nextId + 1 }
  | FileTable.sessionFiles =>
    { st with sessionFiles := st.sessionFiles ++ [e], nextId := st.nextId + 1 }

def patchUser (st : ServerState) (uid : Nat) (f : UserRec → UserRec) : ServerState :=
  { st with users := st.users.map (fun u => if u.id == uid then f u else u) }

/-! ## pushSync -/

inductive PushStatus
  | success
  | conflict
  | error
deriving Repr, DecidableEq

structure PushEntryResult where
  filePath : String
  status : PushStatus
  conflictId : Option Nat := none
  message : Option String := none
deriving Repr, DecidableEq

/-- One iteration of the pushSync per-file loop.  `user` is the record read
once at the start of the mutation: the quota check and the storage patch both
use this stale snapshot, exactly as the handler does. -/
def processFile (now : Int) (user : UserRec) (deviceId : String) (st : ServerState)
    (file : SyncFile) : PushEntryResult × ServerState :=
  let category := categorizeFile file.filePath
  let fileSize : Int := (jsByteLength file.content : Int)
  if user.storageUsed + fileSize > user.storageLimit then
    (⟨file.filePath, PushStatus.error, none, some "Storage quota exceeded"⟩, st)
  else
    match findExisting st category.table user.id file.filePath with
    | some existing =>
      if existing.contentHash == file.contentHash then
        (⟨file.filePath, PushStatus.success, none, none⟩, st)
      else
        let hasConflict := existing.contentHash != file.contentHash
          && existing.deviceId != deviceId
        if hasConflict then
          let conflictId := st.nextId
          let st1 := { st with
            syncConflicts := st.syncConflicts ++ [{
              id := conflictId, userId := user.id, filePath := file.filePath,
              deviceAId := existing.deviceId, deviceBId := deviceId,
              contentA := existing.content, contentB := file.content,
              createdAt := now }],
            nextId := st.nextId + 1 }
          (⟨file.filePath, PushStatus.conflict, some conflictId, none⟩, st1)
        else
          let st1 := patchTable st category.table existing.id (fun e =>
            { e with
              content := file.content,
              contentHash := file.contentHash,
              lastModified := file.lastModified,
              version := e.version + 1,
              syncedAt := now,
              deviceId := deviceId })
          (⟨file.filePath, PushStatus.success, none, none⟩, st1)
    | none =>
      let st1 :=
        match category.table with
        | FileTable.configFiles =>
          insertInto st FileTable.configFiles (fun fid =>
            { id := fid, userId := user.id, deviceId := deviceId,
              filePath := file.filePath, content := file.content,
              contentHash := file.contentHash, lastModified := file.lastModified,
              version := 1, syncedAt := now })
        | FileTable.sessionFiles =>
          insertInto st FileTable.sessionFiles (fun fid =>
            { id := fid, userId := user.id, deviceId := deviceId,
              filePath := file.filePath, content := file.content,
              contentHash := file.contentHash, lastModified := file.lastModified,
              version := 1, syncedAt := now,
              sessionId := some (category.sessionId.getD "unknown"),
              fileType := some (category.fileType.getD "todo") })
      let st2 := patchUser st1 user.id
        (fun u => { u with storageUsed := user.storageUsed + fileSize })
      (⟨file.filePath, PushStatus.success, none, none⟩, st2)

structure RateLimitResult where
  ok : Bool
  retryAfter : Int
deriving Repr, DecidableEq

/-- Transcription of the `pushSync` handler.  `now` stands for `Date.now()`
and `rl` for the token-bucket verdict of the rate-limit collaborator. -/
def pushSync (now : Int) (apiKey deviceId : String) (files : List SyncFile)
    (rl : RateLimitResult) (st : ServerState) :
    Except String (List PushEntryResult × ServerState) :=
  match validateApiKey st apiKey with
  | none => Except.error "Invalid API key"
  | some user =>
    if !rl.ok then
      Except.error ("Rate limit exceeded. Try again in "
        ++ toString ((rl.retryAfter + 999) / 1000) ++ "s")
    else
      let out := files.foldl
        (fun (acc : List PushEntryResult × ServerState) file =>
          let r := processFile now user deviceId acc.2 file
          (acc.1 ++ [r.1], r.2))
        ([], st)
      let st2 := patchUser out.2 user.id (fun u => { u with lastSyncAt := now })
      Except.ok (out.1, st2)

/-! ## pullSync and subscribeToChanges -/

structure PullFileView where
  id : Nat
  filePath : String
  content : String
  contentHash : String
  lastModified : Int
  version : Nat
  syncedAt : Int
  deviceId : String
deriving Repr, DecidableEq

def toPullView (e : CatalogEntry) : PullFileView :=
  ⟨e.id, e.filePath, e.content, e.contentHash, e.lastModified, e.version, e.syncedAt, e.deviceId⟩

/-- The `by_user` listings of both tables, concatenated as in the handlers. -/
def userFiles (st : ServerState) (uid : Nat) : List CatalogEntry :=
  st.configFiles.filter (fun e => e.userId == uid)
    ++ st.sessionFiles.filter (fun e => e.userId == uid)

/-- Transcription of the `pullSync` handler. -/
def pullSync (apiKey deviceId : String) (lastSyncTime : Option Int) (st : ServerState) :
    Except String (List PullFileView) :=
  match validateApiKey st apiKey with
  | none => Except.error "Invalid API key"
  | some user =>
    let allFiles := userFiles st user.id
    let filteredFiles := allFiles.filter (fun file =>
      if file.deviceId == deviceId then false
      else
        match lastSyncTime with
        | some t => file.syncedAt > t
        | none => true)
    Except.ok (filteredFiles.map toPullView)

structure FeedFileView where
  id : Nat
  filePath : String
  contentHash : String
  lastModified : Int
  version : Nat
  deviceId : String
deriving Repr, DecidableEq

structure FeedConflictView where
  id : Nat
  filePath : String
  deviceAId : String
  deviceBId : String
  createdAt : Int
deriving Repr, DecidableEq

structure SubscribeResult where
  files : List FeedFileView
  conflicts : List FeedConflictView
deriving Repr, DecidableEq

/-- Transcription of the `subscribeToChanges` handler.  Note the invalid-key
branch: it returns an empty result instead of throwing. -/
def subscribeToChanges (apiKey deviceId : String) (st : ServerState) :
    Except String SubscribeResult :=
  match validateApiKey st apiKey with
  | none => Except.ok ⟨[], []⟩
  | some user =>
    let allFiles := userFiles st user.id
    let recentFiles :=
      (sortCmp (fun a b => b.syncedAt - a.syncedAt)
        (allFiles.filter (fun f => f.deviceId != deviceId))).take 20
    let conflicts := st.syncConflicts.filter
      (fun c => c.userId == user.id && c.resolvedAt == none)
    Except.ok ⟨recentFiles.map (fun f =>
        ⟨f.id, f.filePath, f.contentHash, f.lastModified, f.version, f.deviceId⟩),
      conflicts.map (fun c => ⟨c.id, c.filePath, c.deviceAId, c.deviceBId, c.createdAt⟩)⟩

/-! ## resolveConflict -/

inductive Resolution
  | keep_local
  | keep_remote
  | keep_both
  | manual
deriving Repr, DecidableEq

def resolutionName : Resolution → String
  | Resolution.keep_local => "keep_local"
  | Resolution.keep_remote => "keep_remote"
  | Resolution.keep_both => "keep_both"
  | Resolution.manual => "manual"

/-- `ctx.db.get(conflictId)` plus the ownership check of the handler. -/
def findConflict (st : ServerState) (conflictId : Nat) (uid : Nat) : Option ConflictRec :=
  match st.syncConflicts.find? (fun c => c.id == conflictId) with
  | some c => if c.userId == uid then some c else none
  | none => none

/-- The isConfigFile test of the resolveConflict handler (same predicate as
the configFiles branch of categorizeFile). -/
def isConfigPath (p : String) : Bool :=
  jsEndsWith p ".md" || p == "settings.json" || p == "history.jsonl"
    || jsStartsWith p "commands/" || jsStartsWith p "plugins/" || jsStartsWith p "agents/"

/-- The switch of the resolveConflict handler computing `finalContent`. -/
def resolutionContent (conflict : ConflictRec) (resolution : Resolution)
    (manualContent : Option String) (deviceId : String) : Except String String :=
  match resolution with
  | Resolution.keep_local =>
    Except.ok (if conflict.deviceAId == deviceId then conflict.contentA else conflict.contentB)
  | Resolution.keep_remote =>
    Except.ok (if conflict.deviceAId == deviceId then conflict.contentB else conflict.contentA)
  | Resolution.keep_both =>
    if jsEndsWith conflict.filePath ".json" then
      Except.ok (mergeJSON conflict.contentA conflict.contentB)
    else if jsEndsWith conflict.filePath ".jsonl" then
      Except.ok (mergeJSONL conflict.contentA conflict.contentB)
    else
      Except.ok ("<<<<<<< DEVICE " ++ conflict.deviceAId ++ "\n" ++ conflict.contentA
        ++ "\n=======\n" ++ conflict.contentB ++ "\n>>>>>>> DEVICE " ++ conflict.deviceBId)
  | Resolution.manual =>
    match manualContent with
    | some c =>
      if c == "" then Except.error "Manual content required for manual resolution"
      else Except.ok c
    | none => Except.error "Manual content required for manual resolution"

/-- Transcription of the `resolveConflict` handler.  `hashFn` stands for the
SHA-256 `computeHash` collaborator; the handler returns the chosen content and
the new state. -/
def resolveConflict (hashFn : String → String) (now : Int) (apiKey : String)
    (conflictId : Nat) (resolution : Resolution) (manualContent : Option String)
    (deviceId : String) (st : ServerState) : Except String (String × ServerState) :=
  match validateApiKey st apiKey with
  | none => Except.error "Invalid API key"
  | some user =>
    match findConflict st conflictId user.id with
    | none => Except.error "Conflict not found or unauthorized"
    | some conflict =>
      match resolutionContent conflict resolution manualContent deviceId with
      | Except.error e => Except.error e
      | Except.ok finalContent =>
        let tableName :=
          if isConfigPath conflict.filePath then FileTable.configFiles
          else FileTable.sessionFiles
        let hash := hashFn finalContent
        let st1 :=
          match findExisting st tableName user.id conflict.filePath with
          | some existingFile =>
            patchTable st tableName existingFile.id (fun e =>
              { e with
                content := finalContent,
                contentHash := hash,
                lastModified := now,
                version := e.version + 1,
                syncedAt := now,
                deviceId := deviceId })
          | none =>
            match tableName with
            | FileTable.configFiles =>
              insertInto st FileTable.configFiles (fun fid =>
                { id := fid, userId := user.id, deviceId := deviceId,
                  filePath := conflict.filePath, content := finalContent,
                  contentHash := hash, lastModified := now, version := 1, syncedAt := now })
            | FileTable.sessionFiles =>
              insertInto st FileTable.sessionFiles (fun fid =>
                { id := fid, userId := user.id, deviceId := deviceId,
                  filePath := conflict.filePath, content := finalContent,
                  contentHash := hash, lastModified := now, version := 1, syncedAt := now,
                  sessionId := some (todosSessionId conflict.filePath),
                  fileType := some (if jsStartsWith conflict.filePath "todos/" then "todo"
                    else "session-env") })
        let st2 := { st1 with
          syncConflicts := st1.syncConflicts.map (fun c =>
            if c.id == conflictId then
              { c with resolvedAt := some now, resolution := some (resolutionName resolution) }
            else c) }
        Except.ok (finalContent, st2)

/-! ## File inventory, from apps/cli/src/sync-utils.ts -/

/-- A node of the local sync tree; directories carry an mtime too because
`statSync` is applied to every directory entry. -/
inductive FsNode where
  | file (name : String) (mtime : Int) (content : String)
  | dir (name : String) (mtime : Int) (entries : List FsNode)
deriving Repr

def FsNode.name : FsNode → String
  | FsNode.file n _ _ => n
  | FsNode.dir n _ _ => n

def FsNode.mtime : FsNode → Int
  | FsNode.file _ m _ => m
  | FsNode.dir _ m _ => m

def FsNode.isDir : FsNode → Bool
  | FsNode.file _ _ _ => false
  | FsNode.dir _ _ _ => true

/-- The readable content of a node: the bytes of a file, none for a
directory (reading a directory throws). -/
def FsNode.contentOpt : FsNode → Option String
  | FsNode.file _ _ c => some c
  | FsNode.dir _ _ _ => none

/-- The EXCLUDED_DIRS set. -/
def excludedDirs : List String :=
  ["debug", "file-history", "shell-snapshots", "local", "statsig"]

/-- The LIMITED_DIRS set. -/
def limitedDirs : List String := ["todos", "session-env"]

/-- MAX_RECENT_FILES and MAX_RECENT_SESSIONS. -/
def maxRecentFiles : Nat := 10

def maxRecentSessions : Nat := 10

/-- The value of `path.join(a, b)` for the joins the scan performs. -/
def pathJoin (a b : String) : String :=
  if a = "" then b else a ++ "/" ++ b

/-- Transcription of shouldSyncFile. -/
def shouldSyncFile (fileName : String) (dirName : Option String) : Bool :=
  match dirName with
  | none =>
    jsEndsWith fileName ".md" || jsEndsWith fileName ".json" || jsEndsWith fileName ".jsonl"
  | some d =>
    if d = "commands" && jsEndsWith fileName ".md" then true
    else jsEndsWith fileName ".json"

/-- Transcription of getRecentFiles: sort the directory entries by
modification time, newest first, and keep the first `limit`.  Directory
entries compete for the window exactly as files do (the code stats every
name it reads). -/
def getRecentFiles (entries : List FsNode) (limit : Nat) : List FsNode :=
  (sortCmp (fun a b => b.mtime - a.mtime) entries).take limit

/-- One candidate session file found under the projects directory.  The
content is `none` when the matching name is itself a directory: the scan
still pushes it (only the name is tested) and the later `readFileSync` throws
and is caught. -/
structure SessionCandidate where
  relPath : String
  mtime : Int
  content : Option String
deriving Repr, DecidableEq

/-- The candidate session files of one project directory: names ending in
`.jsonl` and not starting with `agent-`. -/
def projectSessionFiles (projectDir : String) (entries : List FsNode) :
    List SessionCandidate :=
  entries.foldr (fun node acc =>
    if jsEndsWith node.name ".jsonl" && !(jsStartsWith node.name "agent-") then
      { relPath := "projects/" ++ projectDir ++ "/" ++ node.name,
        mtime := node.mtime,
        content := node.contentOpt } :: acc
    else acc) []

/-- The `allSessions` array of getRecentSessions: the session files of every
project subdirectory, non-directories at the top level skipped. -/
def allProjectSessions (projectsEntries : List FsNode) : List SessionCandidate :=
  projectsEntries.foldr (fun node acc =>
    match node with
    | FsNode.dir dname _ subEntries => projectSessionFiles dname subEntries ++ acc
    | FsNode.file _ _ _ => acc) []

/-- Transcription of getRecentSessions: collect the session files of every
project subdirectory (skipping non-directories at the top level), sort all of
them together by modification time and keep the `limit` most recent. -/
def getRecentSessions (projectsEntries : List FsNode) (limit : Nat) :
    List SessionCandidate :=
  (sortCmp (fun a b => b.mtime - a.mtime) (allProjectSessions projectsEntries)).take limit

/-- A record produced by the inventory scan. -/
structure ScanEntry where
  filePath : String
  content : String
  contentHash : String
  lastModified : Int
deriving Repr, DecidableEq

/-- Transcription of traverseDir, fuel-indexed over the nesting depth.
`hashFn` stands for the SHA-256 computeHash.  The function is applied to the
entry list of a directory together with its relative path and its own name
(`none` for the sync root). -/
def traverseDir (hashFn : String → String) :
    Nat → List FsNode → String → Option String → List ScanEntry
  | 0, _, _, _ => []
  | Nat.succ fuel, entries, relativePath, dirName =>
    if (match dirName with
        | some d => excludedDirs.contains d
        | none => false) then []
    else if dirName == some "projects" then
      (getRecentSessions entries maxRecentSessions).foldr (fun c acc =>
        match c.content with
        | some content =>
          { filePath := c.relPath, content := content,
            contentHash := hashFn content, lastModified := c.mtime } :: acc
        | none => acc) []
    else
      let filesToProcess :=
        if (match dirName with
            | some d => limitedDirs.contains d
            | none => false) then getRecentFiles entries maxRecentFiles
        else entries
      filesToProcess.foldr (fun node acc =>
        match node with
        | FsNode.dir n _ subEntries =>
          traverseDir hashFn fuel subEntries (pathJoin relativePath n) (some n) ++ acc
        | FsNode.file n m content =>
          if shouldSyncFile n dirName then
            { filePath := pathJoin relativePath n, content := content,
              contentHash := hashFn content, lastModified := m } :: acc
          else acc) []

mutual
/-- Depth of a tree, an adequate fuel for traverseDir. -/
def FsNode.depth : FsNode → Nat
  | FsNode.file _ _ _ => 1
  | FsNode.dir _ _ entries => 1 + FsNode.depthList entries

def FsNode.depthList : List FsNode → Nat
  | [] => 0
  | e :: es => max (FsNode.depth e) (FsNode.depthList es)
end

/-- Transcription of readLocalFiles restricted to an existing sync root. -/
def readLocalFiles (hashFn : String → String) (root : FsNode) : List ScanEntry :=
  match root with
  | FsNode.dir _ _ entries => traverseDir hashFn root.depth entries "" none
  | FsNode.file _ _ _ => []

/-! ## Change scheduler, from apps/cli/src/sync-engine.ts -/

def debounceMs : Int := 5000

def minIntervalMs : Int := 30000

/-- Scheduler state of one SyncEngine instance.  `debounceArmed` is a pending
debounce timer, `scheduledTries` counts pending `setTimeout(() => trySync())`
callbacks created by the minimum-interval branch. -/
structure SchedState where
  lastSyncTime : Int
  pendingChanges : List String
  debounceArmed : Bool
  scheduledTries : Nat
  isSyncing : Bool
deriving Repr, DecidableEq

def initialSchedState : SchedState :=
  { lastSyncTime := 0, pendingChanges := [], debounceArmed := false,
    scheduledTries := 0, isSyncing := false }

/-- Transcription of queueChange: remember the path and reset the debounce
timer. -/
def queueChange (path : String) (st : SchedState) : SchedState :=
  { st with
    pendingChanges := if st.pendingChanges.contains path then st.pendingChanges
      else st.pendingChanges ++ [path],
    debounceArmed := true }

/-- Transcription of trySync at time `now`: within the minimum interval the
attempt is rescheduled; while a sync is in flight the attempt just returns
(the log claims "queuing" but nothing is scheduled); otherwise performSync
starts. -/
def trySync (now : Int) (st : SchedState) : SchedState :=
  if now - st.lastSyncTime < minIntervalMs then
    { st with scheduledTries := st.scheduledTries + 1 }
  else if st.isSyncing then st
  else { st with isSyncing := true }

/-- Transcription of forceSync: returns immediately while a sync is in
flight, otherwise starts performSync. -/
def forceSync (st : SchedState) : SchedState :=
  if st.isSyncing then st else { st with isSyncing := true }

/-- Completion of performSync at time `now`: on success the last-sync time is
stamped and the pending set cleared; the catch branch skips both; the finally
branch clears the in-flight flag. -/
def syncComplete (now : Int) (success : Bool) (st : SchedState) : SchedState :=
  if st.isSyncing then
    if success then
      { st with lastSyncTime := now, pendingChanges := [], isSyncing := false }
    else { st with isSyncing := false }
  else st

/-- The scheduler events the embedding steps over: a watcher change event, the
debounce timer firing, one rescheduled trySync firing, a manual forceSync, and
the in-flight sync finishing. -/
inductive SchedEvent where
  | fileChange (path : String) (now : Int)
  | debounceFire (now : Int)
  | scheduledTryFire (now : Int)
  | forceSyncCall (now : Int)
  | syncDone (now : Int) (success : Bool)
deriving Repr, DecidableEq

/-- One event-loop step of the scheduler. -/
def schedStep (st : SchedState) : SchedEvent → SchedState
  | SchedEvent.fileChange path _ => queueChange path st
  | SchedEvent.debounceFire now =>
    if st.debounceArmed then trySync now { st with debounceArmed := false } else st
  | SchedEvent.scheduledTryFire now =>
    if st.scheduledTries > 0 then
      trySync now { st with scheduledTries := st.scheduledTries - 1 }
    else st
  | SchedEvent.forceSyncCall _ => forceSync st
  | SchedEvent.syncDone now success => syncComplete now success st

/-- Run the scheduler over a sequence of event-loop events. -/
def runSched (events : List SchedEvent) (st : SchedState) : SchedState :=
  events.foldl schedStep st

/-! ## Concrete fixtures used by the verification theorems -/

def rlOkRes : RateLimitResult := ⟨true, 0⟩

/-- A user one byte below the quota ceiling. -/
def qUser : UserRec := { id := 1, storageUsed := 9, storageLimit := 10, lastSyncAt := 0 }

/-- A catalog entry written by device A. -/
def qEntry : CatalogEntry :=
  { id := 100, userId := 1, deviceId := "A", filePath := "notes.md", content := "old",
    contentHash := "h1", lastModified := 1, version := 1, syncedAt := 5 }

def qState : ServerState :=
  { users := [qUser], apiKeys := [("k", 1)], configFiles := [qEntry], sessionFiles := [],
    syncConflicts := [{ id := 90, userId := 1, filePath := "notes.md", deviceAId := "A",
                        deviceBId := "B", contentA := "old", contentB := "o2", createdAt := 2 }],
    nextId := 101 }

/-- A divergent write of the same path from device B. -/
def qFile : SyncFile :=
  { filePath := "notes.md", content := "new content!", contentHash := "h2", lastModified := 9 }

/-- A fresh user with a 10-byte ceiling over an empty catalog. -/
def sUser : UserRec := { id := 1, storageUsed := 0, storageLimit := 10, lastSyncAt := 0 }

def sState : ServerState :=
  { users := [sUser], apiKeys := [("k", 1)], configFiles := [], sessionFiles := [],
    syncConflicts := [], nextId := 1 }

def sFileA : SyncFile :=
  { filePath := "a.md", content := "abcdef", contentHash := "ha", lastModified := 1 }

def sFileB : SyncFile :=
  { filePath := "b.md", content := "uvwxyz", contentHash := "hb", lastModified := 2 }

def sFileC : SyncFile :=
  { filePath := "c.md", content := "abcdef", contentHash := "hc", lastModified := 1 }

/-- The state the first push of sFileC produces (checked by the idempotence
counterexample below). -/
def sStateAfterC : ServerState :=
  { users := [{ id := 1, storageUsed := 6, storageLimit := 10, lastSyncAt := 50 }],
    apiKeys := [("k", 1)],
    configFiles := [{ id := 1, userId := 1, deviceId := "A", filePath := "c.md",
                      content := "abcdef", contentHash := "hc", lastModified := 1,
                      version := 1, syncedAt := 50 }],
    sessionFiles := [], syncConflicts := [], nextId := 2 }

/-- Pull fixture: one entry from device A and one from device B, different
sync times. -/
def pEntryA : CatalogEntry :=
  { id := 10, userId := 1, deviceId := "A", filePath := "notes.md", content := "ca",
    contentHash := "hA", lastModified := 1, version := 1, syncedAt := 100 }

def pEntryB : CatalogEntry :=
  { id := 11, userId := 1, deviceId := "B", filePath := "todos/t1.json", content := "cb",
    contentHash := "hB", lastModified := 2, version := 1, syncedAt := 200,
    sessionId := some "t1", fileType := some "todo" }

def pState : ServerState :=
  { users := [qUser], apiKeys := [("k", 1)], configFiles := [pEntryA],
    sessionFiles := [pEntryB], syncConflicts := [], nextId := 12 }

/-- Structured-data conflict fixture for the keep-both merge. -/
def jsonA : String := "\x7b\"a\":1\x7d"

def jsonB : String := "\x7b\"a\":2,\"b\":3\x7d"

def jConflict : ConflictRec :=
  { id := 7, userId := 1, filePath := "settings.json", deviceAId := "A", deviceBId := "B",
    contentA := jsonA, contentB := jsonB, createdAt := 5 }

def jState : ServerState :=
  { users := [qUser], apiKeys := [("k", 1)], configFiles := [], sessionFiles := [],
    syncConflicts := [jConflict], nextId := 200 }

/-- Line-delimited-record conflict fixture. -/
def lineRec5 : String := "\x7b\"id\":1,\"timestamp\":5\x7d"

def lineRec9 : String := "\x7b\"id\":1,\"timestamp\":9\x7d"

def lineRec3 : String := "\x7b\"id\":2,\"timestamp\":3\x7d"

def lConflict : ConflictRec :=
  { id := 8, userId := 1, filePath := "history.jsonl", deviceAId := "A", deviceBId := "B",
    contentA := lineRec5, contentB := lineRec9, createdAt := 5 }

def lState : ServerState :=
  { users := [qUser], apiKeys := [("k", 1)], configFiles := [], sessionFiles := [],
    syncConflicts := [lConflict], nextId := 300 }

/-- A textual conflict fixture whose writer ids match neither resolving
device (used for the positional keep-local behaviour). -/
def tConflict : ConflictRec :=
  { id := 9, userId := 1, filePath := "notes.md", deviceAId := "A", deviceBId := "B",
    contentA := "alpha", contentB := "beta", createdAt := 5 }

def tState : ServerState :=
  { users := [qUser], apiKeys := [("k", 1)], configFiles := [], sessionFiles := [],
    syncConflicts := [tConflict], nextId := 400 }

/-- Fifteen eligible files with distinct mtimes in a limited directory. -/
def todosEntries : List FsNode :=
  (List.range 15).map (fun i =>
    FsNode.file ("f" ++ toString i ++ ".json") (Int.ofNat i) ("c" ++ toString i))

/-- Twelve primary session files spread over four project subdirectories,
plus one derived (agent-) artifact and one stray top-level file. -/
def projectsEntriesEx : List FsNode :=
  (List.range 4).map (fun i =>
    FsNode.dir ("p" ++ toString i) 0
      ((List.range 3).map (fun j =>
        FsNode.file ("s" ++ toString (3 * i + j) ++ ".jsonl")
          (Int.ofNat (10 + 3 * i + j)) "data")
        ++ (if i = 0 then [FsNode.file "agent-a.jsonl" 999 "skip"] else [])))
    ++ [FsNode.file "stray.jsonl" 500 "e"]

/-- The event-loop trace of the scheduler drop: a sync starts, a change
arrives while it is in flight, its debounce fires during the flight. -/
def c9Events : List SchedEvent :=
  [SchedEvent.fileChange "settings.json" 100000,
   SchedEvent.debounceFire 105000,
   SchedEvent.fileChange "CLAUDE.md" 106000,
   SchedEvent.debounceFire 111000]

/-! ## Verification theorems for the specification claims -/

/-- A one-byte divergent write from device B that fits under the quota. -/
def wFile : SyncFile :=
  { filePath := "notes.md", content := "z", contentHash := "h9", lastModified := 9 }

/-- A user with head-room, holding the c.md entry (for the idempotent-push
witness). -/
def iUser : UserRec := { id := 1, storageUsed := 6, storageLimit := 100, lastSyncAt := 50 }

def iEntry : CatalogEntry :=
  { id := 1, userId := 1, deviceId := "A", filePath := "c.md", content := "abcdef",
    contentHash := "hc", lastModified := 1, version := 1, syncedAt := 50 }

def iState : ServerState :=
  { users := [iUser], apiKeys := [("k", 1)], configFiles := [iEntry], sessionFiles := [],
    syncConflicts := [], nextId := 2 }

/-- Last-binding lookup in a raw pair list (later pairs shadow earlier ones,
as successive JavaScript property assignments do). -/
def objFindLast : List (String × JsonV) → String → Option JsonV
  | [], _ => none
  | (a, b) :: ps, k =>
    match objFindLast ps k with
    | some v => some v
    | none => if a == k then some b else none

def FsNode.contentD : FsNode → String
  | FsNode.file _ _ c => c
  | FsNode.dir _ _ _ => ""

theorem insCmp_perm (cmp : α → α → Int) (x : α) (l : List α) :
    (insCmp cmp x l).Perm (x :: l) := by
  induction l with
  | nil => simp [insCmp]
  | cons y ys ih =>
    simp only [insCmp]
    by_cases h : cmp y x ≤ 0
    · rw [if_pos h]
      exact (ih.cons y).trans (List.Perm.swap x y ys)
    · rw [if_neg h]

theorem sortCmp_perm (cmp : α → α → Int) (xs : List α) :
    (sortCmp cmp xs).Perm xs := by
  suffices h : ∀ xs acc : List α,
      (xs.foldl (fun acc x => insCmp cmp x acc) acc).Perm (xs ++ acc) by
    simpa using h xs []
  intro xs
  induction xs with
  | nil => intro acc; simp
  | cons x xs ih =>
    intro acc
    simp only [List.foldl_cons]
    refine (ih (insCmp cmp x acc)).trans ?_
    have h1 : (xs ++ insCmp cmp x acc).Perm (xs ++ (x :: acc)) :=
      List.Perm.append_left xs (insCmp_perm cmp x acc)
    have h2 : (xs ++ (x :: acc)).Perm (x :: (xs ++ acc)) := List.perm_middle
    exact (h1.trans h2)

theorem mem_sortCmp (cmp : α → α → Int) (xs : List α) (a : α) :
    a ∈ sortCmp cmp xs ↔ a ∈ xs :=
  (sortCmp_perm cmp xs).mem_iff

/-- Sortedness of the stable sort relative to a predicate cutting out the
elements on which the comparator is totally preordered. -/
theorem insCmp_pairwise (cmp : α → α → Int) (p : α → Prop)
    (htot : ∀ a b, p a → p b → cmp a b ≤ 0 ∨ cmp b a ≤ 0)
    (htrans : ∀ a b c, p a → p b → p c → cmp a b ≤ 0 → cmp b c ≤ 0 → cmp a c ≤ 0)
    (x : α) (l : List α) (hx : p x) (hl : ∀ y ∈ l, p y)
    (hsorted : l.Pairwise (fun a b => cmp a b ≤ 0)) :
    (insCmp cmp x l).Pairwise (fun a b => cmp a b ≤ 0) := by
  induction l with
  | nil => simp [insCmp]
  | cons y ys ih =>
    simp only [insCmp]
    rcases List.pairwise_cons.mp hsorted with ⟨hy, hys⟩
    by_cases h : cmp y x ≤ 0
    · rw [if_pos h]
      refine List.pairwise_cons.mpr ⟨?_, ih (fun z hz => hl z (List.mem_cons_of_mem y hz)) hys⟩
      intro z hz
      have hz2 : z ∈ x :: ys := (insCmp_perm cmp x ys).mem_iff.mp hz
      rcases List.mem_cons.mp hz2 with rfl | hz3
      · exact h
      · exact hy z hz3
    · rw [if_neg h]
      have hpy : p y := hl y (List.mem_cons_self y ys)
      have hxy : cmp x y ≤ 0 := by
        rcases htot x y hx hpy with h1 | h1
        · exact h1
        · exact absurd h1 h
      refine List.pairwise_cons.mpr ⟨?_, hsorted⟩
      intro z hz
      rcases List.mem_cons.mp hz with rfl | hz3
      · exact hxy
      · exact htrans x y z hx hpy (hl z (List.mem_cons_of_mem y hz3)) hxy (hy z hz3)

theorem sortCmp_pairwise_aux (cmp : α → α → Int) (p : α → Prop)
    (htot : ∀ a b, p a → p b → cmp a b ≤ 0 ∨ cmp b a ≤ 0)
    (htrans : ∀ a b c, p a → p b → p c → cmp a b ≤ 0 → cmp b c ≤ 0 → cmp a c ≤ 0) :
    ∀ (xs acc : List α), (∀ x ∈ xs, p x) → (∀ y ∈ acc, p y) →
      acc.Pairwise (fun a b => cmp a b ≤ 0) →
      (xs.foldl (fun acc x => insCmp cmp x acc) acc).Pairwise (fun a b => cmp a b ≤ 0)
  | [], acc, _, _, hs => hs
  | x :: xs, acc, hall, hacc, hs => by
    have hx : p x := hall x (List.mem_cons_self x xs)
    have hall' : ∀ y ∈ xs, p y := fun y hy => hall y (List.mem_cons_of_mem x hy)
    have hins : ∀ y ∈ insCmp cmp x acc, p y := by
      intro y hy
      have hy2 : y ∈ x :: acc := (insCmp_perm cmp x acc).mem_iff.mp hy
      rcases List.mem_cons.mp hy2 with rfl | hy3
      · exact hx
      · exact hacc y hy3
    simp only [List.foldl_cons]
    exact sortCmp_pairwise_aux cmp p htot htrans xs (insCmp cmp x acc) hall' hins
      (insCmp_pairwise cmp p htot htrans x acc hx hacc hs)

theorem sortCmp_pairwise (cmp : α → α → Int) (p : α → Prop)
    (htot : ∀ a b, p a → p b → cmp a b ≤ 0 ∨ cmp b a ≤ 0)
    (htrans : ∀ a b c, p a → p b → p c → cmp a b ≤ 0 → cmp b c ≤ 0 → cmp a c ≤ 0)
    (xs : List α) (hall : ∀ x ∈ xs, p x) :
    (sortCmp cmp xs).Pairwise (fun a b => cmp a b ≤ 0) :=
  sortCmp_pairwise_aux cmp p htot htrans xs [] hall (by simp) (by simp)

/-! ## JSON value model -/

mutual
theorem jsonBeq_refl : ∀ v : JsonV, jsonBeq v v = true
  | JsonV.null => rfl
  | JsonV.bool b => by simp [jsonBeq]
  | JsonV.num n => by simp [jsonBeq]
  | JsonV.str s => by simp [jsonBeq]
  | JsonV.arr xs => by simp [jsonBeq, jsonBeqList_refl xs]
  | JsonV.obj fs => by simp [jsonBeq, jsonBeqFields_refl fs]

theorem jsonBeqList_refl : ∀ l : List JsonV, jsonBeqList l l = true
  | [] => rfl
  | x :: xs => by simp [jsonBeqList, jsonBeq_refl x, jsonBeqList_refl xs]

theorem jsonBeqFields_refl : ∀ l : List (String × JsonV), jsonBeqFields l l = true
  | [] => rfl
  | (k, v) :: xs => by simp [jsonBeqFields, jsonBeq_refl v, jsonBeqFields_refl xs]
end

mutual
theorem eq_of_jsonBeq : ∀ {a b : JsonV}, jsonBeq a b = true → a = b
  | JsonV.null, JsonV.null, _ => rfl
  | JsonV.bool a, JsonV.bool b, h => by simpa [jsonBeq] using h
  | JsonV.num a, JsonV.num b, h => by simpa [jsonBeq] using h
  | JsonV.str a, JsonV.str b, h => by simpa [jsonBeq] using h
  | JsonV.arr a, JsonV.arr b, h => by
      have := eq_of_jsonBeqList (a := a) (b := b) (by simpa [jsonBeq] using h)
      simp [this]
  | JsonV.obj a, JsonV.obj b, h => by
      have := eq_of_jsonBeqFields (a := a) (b := b) (by simpa [jsonBeq] using h)
      simp [this]

theorem eq_of_jsonBeqList : ∀ {a b : List JsonV}, jsonBeqList a b = true → a = b
  | [], [], _ => rfl
  | x :: xs, y :: ys, h => by
      have h' := h
      simp only [jsonBeqList, Bool.and_eq_true] at h'
      have h1 := eq_of_jsonBeq h'.1
      have h2 := eq_of_jsonBeqList h'.2
      simp [h1, h2]

theorem eq_of_jsonBeqFields :
    ∀ {a b : List (String × JsonV)}, jsonBeqFields a b = true → a = b
  | [], [], _ => rfl
  | (k1, v1) :: xs, (k2, v2) :: ys, h => by
      have h' := h
      simp only [jsonBeqFields, Bool.and_eq_true] at h'
      have h1 := eq_of_jsonBeq h'.1.2
      have h2 := eq_of_jsonBeqFields h'.2
      have h3 : k1 = k2 := by simpa using h'.1.1
      simp [h1, h2, h3]
end

theorem jsonBeq_eq_true_iff (a b : JsonV) : jsonBeq a b = true ↔ a = b :=
  ⟨eq_of_jsonBeq, fun h => h ▸ jsonBeq_refl a⟩

theorem jsonBeq_symm (a b : JsonV) : jsonBeq a b = jsonBeq b a := by
  cases h1 : jsonBeq a b with
  | true => rw [eq_of_jsonBeq h1, jsonBeq_refl]
  | false =>
    cases h2 : jsonBeq b a with
    | true => rw [eq_of_jsonBeq h2] at h1; rw [jsonBeq_refl] at h1; exact h1.symm
    | false => rfl

theorem jsonBeq_ne (a b : JsonV) (h : a ≠ b) : jsonBeq a b = false := by
  cases hb : jsonBeq a b with
  | true => exact absurd (eq_of_jsonBeq hb) h
  | false => rfl

/-! ## JSON object-field operations (JavaScript object semantics) -/

/-- C1 (counterexample).  The per-path quota check runs before conflict
detection, so a push whose entry diverges from another device is reported as
a quota error, with no Conflict record created, whenever the entry byte
length no longer fits under the ceiling: the claim as stated (divergent entry
with existing catalog entry always yields a conflict) is false.  Here the
stored entry was written by device A with hash h1, device B pushes hash h2,
and the only outcome is a storage error, the conflict table staying as it
was. -/
theorem pushSync_quota_error_instead_of_conflict :
    qState.configFiles = [qEntry] ∧
    qEntry.contentHash ≠ qFile.contentHash ∧
    qEntry.deviceId ≠ "B" ∧
    ((pushSync 50 "k" "B" [qFile] rlOkRes qState).toOption).map
      (fun p => (p.1.map (fun r => (r.status, r.conflictId)),
        p.2.syncConflicts, p.2.configFiles)) =
      some ([(PushStatus.error, none)], qState.syncConflicts, [qEntry]) := by
  decide

/-- C2 (code bug).  The quota ledger is updated from the stale user snapshot:
pushing two fresh 6-byte files against a 10-byte ceiling inserts both (the
second is accepted although the counter after the first insert leaves no
room) and the final storage-used counter is 6, the byte length of the last
insert alone, not the 12 bytes actually inserted. -/
theorem pushSync_storage_counter_lost_update :
    jsByteLength sFileA.content = 6 ∧
    jsByteLength sFileB.content = 6 ∧
    sUser.storageUsed = 0 ∧
    sUser.storageLimit = 10 ∧
    ((pushSync 50 "k" "A" [sFileA, sFileB] rlOkRes sState).toOption).map
      (fun p => (p.1.map (fun r => r.status),
        p.2.users.map (fun u => u.storageUsed),
        p.2.configFiles.length)) =
      some ([PushStatus.success, PushStatus.success], [6], 2) := by
  decide

/-- C4 (counterexample).  Pushing the same unchanged inventory twice is not
always an outcome-level no-op: the quota precheck runs before the hash
comparison, so with storage-used at 6 of 10 the second push of the same
6-byte file is rejected with a storage error instead of the claimed success
(the catalog row and conflict table are still untouched). -/
theorem pushSync_second_identical_push_rejected :
    (pushSync 50 "k" "A" [sFileC] rlOkRes sState).toOption =
      some ([⟨"c.md", PushStatus.success, none, none⟩], sStateAfterC) ∧
    (findExisting sStateAfterC FileTable.configFiles 1 "c.md").map
      (fun e => e.contentHash) = some sFileC.contentHash ∧
    ((pushSync 90 "k" "A" [sFileC] rlOkRes sStateAfterC).toOption).map
      (fun p => (p.1.map (fun r => (r.status, r.message)),
        p.2.configFiles, p.2.syncConflicts)) =
      some ([(PushStatus.error, some "Storage quota exceeded")],
        sStateAfterC.configFiles, []) := by
  decide

/-- C8 (counterexample).  An invalid bearer credential does not abort the
subscribe operation: subscribeToChanges returns a normal, empty result
although the key resolves to no user (while the same state and key make push
and pull throw). -/
theorem subscribeToChanges_invalid_key_counterexample :
    validateApiKey qState "bad" = none ∧
    subscribeToChanges "bad" "B" qState = Except.ok { files := [], conflicts := [] } := by
  constructor
  · rfl
  · rfl

/-- C8 (amended).  An invalid or unknown bearer credential makes pushSync and
pullSync abort with the authentication error before any per-entry processing
or state change; the changeFeed variant (subscribeToChanges) instead returns
the empty result, without aborting. -/
theorem auth_gate_per_operation (now : Int) (apiKey deviceId : String)
    (files : List SyncFile) (rl : RateLimitResult) (lastSyncTime : Option Int)
    (st : ServerState) (h : validateApiKey st apiKey = none) :
    pushSync now apiKey deviceId files rl st = Except.error "Invalid API key" ∧
    pullSync apiKey deviceId lastSyncTime st = Except.error "Invalid API key" ∧
    subscribeToChanges apiKey deviceId st = Except.ok { files := [], conflicts := [] } := by
  refine ⟨?_, ?_, ?_⟩
  · simp [pushSync, h]
  · simp [pullSync, h]
  · simp [subscribeToChanges, h]

/-- C8 (witness).  The authentication gate applied to the concrete state and
the unknown key "bad". -/
theorem auth_gate_per_operation_witness :
    pushSync 50 "bad" "B" [qFile] rlOkRes qState = Except.error "Invalid API key" ∧
    pullSync "bad" "B" none qState = Except.error "Invalid API key" ∧
    subscribeToChanges "bad" "B" qState = Except.ok { files := [], conflicts := [] } :=
  auth_gate_per_operation 50 "bad" "B" [qFile] rlOkRes none qState rfl

/-- C9 (code bug).  A sync request arriving while a sync is in flight is
dropped, not queued: after a change event and its debounce firing during the
in-flight sync, no trailing attempt exists (no armed debounce, no scheduled
retry), and when the sync completes the scheduler is quiescent — nothing will
run again without a fresh external event, contradicting the required
"trailing request scheduled to run immediately after the in-flight one
completes". -/
theorem scheduler_inflight_request_dropped :
    (runSched c9Events initialSchedState).isSyncing = true ∧
    (runSched c9Events initialSchedState).pendingChanges = ["settings.json", "CLAUDE.md"] ∧
    (runSched c9Events initialSchedState).debounceArmed = false ∧
    (runSched c9Events initialSchedState).scheduledTries = 0 ∧
    runSched (c9Events ++ [SchedEvent.syncDone 112000 true]) initialSchedState =
      { lastSyncTime := 112000, pendingChanges := [], debounceArmed := false,
        scheduledTries := 0, isSyncing := false } := by
  decide

/-- C10 (confirmed).  keep_local is positional: resolveConflict compares the
resolving device only against deviceAId, returning contentA exactly when they
match and contentB in every other case; keep_remote mirrors it.  In
particular a device matching neither side gets contentB from keep_local and
contentA from keep_remote, and the resolution succeeds rather than rejecting
the unrecognized device id. -/
theorem resolveConflict_keep_local_positional
    (hashFn : String → String) (now : Int) (apiKey deviceId : String)
    (conflictId : Nat) (st : ServerState) (u : UserRec) (c : ConflictRec)
    (hu : validateApiKey st apiKey = some u)
    (hc : findConflict st conflictId u.id = some c) :
    (∃ st1, resolveConflict hashFn now apiKey conflictId Resolution.keep_local none deviceId st
      = Except.ok ((if c.deviceAId == deviceId then c.contentA else c.contentB), st1)) ∧
    (∃ st2, resolveConflict hashFn now apiKey conflictId Resolution.keep_remote none deviceId st
      = Except.ok ((if c.deviceAId == deviceId then c.contentB else c.contentA), st2)) ∧
    (c.deviceAId ≠ deviceId → c.deviceBId ≠ deviceId →
      (∃ st1, resolveConflict hashFn now apiKey conflictId Resolution.keep_local none deviceId st
        = Except.ok (c.contentB, st1)) ∧
      (∃ st2, resolveConflict hashFn now apiKey conflictId Resolution.keep_remote none deviceId st
        = Except.ok (c.contentA, st2))) := by
  have hbA : ∀ s : String, c.deviceAId ≠ s → (c.deviceAId == s) = false := by
    intro s hne
    exact beq_eq_false_iff_ne.mpr hne
  refine ⟨?_, ?_, fun hA _ => ⟨?_, ?_⟩⟩
  · simp only [resolveConflict, hu, hc, resolutionContent]
    exact ⟨_, rfl⟩
  · simp only [resolveConflict, hu, hc, resolutionContent]
    exact ⟨_, rfl⟩
  · simp only [resolveConflict, hu, hc, resolutionContent, hbA deviceId hA,
      Bool.false_eq_true, if_false]
    exact ⟨_, rfl⟩
  · simp only [resolveConflict, hu, hc, resolutionContent, hbA deviceId hA,
      Bool.false_eq_true, if_false]
    exact ⟨_, rfl⟩

/-- C10 (witness).  A third device C resolves the conflict between devices A
and B: keep_local hands it contentB, keep_remote contentA, both succeeding. -/
theorem resolveConflict_keep_local_positional_witness :
    (∃ st1, resolveConflict (fun s => s) 99 "k" 9 Resolution.keep_local none "C" tState
      = Except.ok (tConflict.contentB, st1)) ∧
    (∃ st2, resolveConflict (fun s => s) 99 "k" 9 Resolution.keep_remote none "C" tState
      = Except.ok (tConflict.contentA, st2)) :=
  (resolveConflict_keep_local_positional (fun s => s) 99 "k" "C" 9 tState qUser tConflict
    rfl rfl).2.2 (by decide) (by decide)

/-- C3 (confirmed).  pullSync returns exactly the catalog entries of the user
whose last writer differs from the calling device, pruned by
`syncedAt > sinceTimestamp` when the cursor is supplied; an entry last
written by the calling device is never returned, cursor or not. -/
theorem pullSync_exactly_other_device_entries
    (apiKey deviceId : String) (lastSyncTime : Option Int) (st : ServerState) (u : UserRec)
    (hu : validateApiKey st apiKey = some u) :
    ∃ r, pullSync apiKey deviceId lastSyncTime st = Except.ok r ∧
      (∀ v ∈ r, ∃ e, e ∈ userFiles st u.id ∧ v = toPullView e ∧ e.deviceId ≠ deviceId ∧
        (∀ t, lastSyncTime = some t → e.syncedAt > t)) ∧
      (∀ e ∈ userFiles st u.id, e.deviceId ≠ deviceId →
        (∀ t, lastSyncTime = some t → e.syncedAt > t) → toPullView e ∈ r) := by
  refine ⟨((userFiles st u.id).filter (fun file =>
      if file.deviceId == deviceId then false
      else match lastSyncTime with
        | some t => decide (file.syncedAt > t)
        | none => true)).map toPullView, ?_, ?_, ?_⟩
  · simp only [pullSync, hu]
  · intro v hv
    rcases List.mem_map.mp hv with ⟨e, he, rfl⟩
    rcases List.mem_filter.mp he with ⟨heM, heP⟩
    refine ⟨e, heM, rfl, ?_, ?_⟩
    · intro hEq
      simp [hEq] at heP
    · intro t ht
      subst ht
      by_cases hb : e.deviceId == deviceId
      · simp [hb] at heP
      · simp only [hb, Bool.false_eq_true, if_false, decide_eq_true_eq] at heP
        exact heP
  · intro e heM hd ht
    refine List.mem_map.mpr ⟨e, List.mem_filter.mpr ⟨heM, ?_⟩, rfl⟩
    have hb : (e.deviceId == deviceId) = false := beq_eq_false_iff_ne.mpr hd
    cases hls : lastSyncTime with
    | none => simp [hb]
    | some t =>
      simp only [hb, Bool.false_eq_true, if_false, decide_eq_true_eq]
      exact ht t hls

/-- C3 (witness).  Device A pulls with no cursor: it receives the entry that
device B wrote and nothing of its own. -/
theorem pullSync_exactly_other_device_entries_witness :
    ∃ r, pullSync "k" "A" none pState = Except.ok r ∧ toPullView pEntryB ∈ r ∧
      ∀ v ∈ r, v.deviceId ≠ "A" := by
  obtain ⟨r, hr, hsou, hcom⟩ :=
    pullSync_exactly_other_device_entries "k" "A" none pState qUser rfl
  refine ⟨r, hr, ?_, ?_⟩
  · exact hcom pEntryB (by decide) (by decide) (fun t ht => Option.noConfusion ht)
  · intro v hv
    obtain ⟨e, _, rfl, hd, _⟩ := hsou v hv
    exact hd

/-- C1 (amended).  Provided the entry passes the storage-quota precheck (the
check the handler runs first), a pushed entry whose stored counterpart has a
different hash and a different last writer produces exactly one Conflict
record — deviceA/contentA from the stored writer, deviceB/contentB from the
pushing device — the per-path outcome is "conflict" carrying that record's
id, and both file tables are left untouched. -/
theorem processFile_conflict_detection
    (now : Int) (u : UserRec) (deviceId : String) (st : ServerState) (f : SyncFile)
    (e : CatalogEntry)
    (hq : u.storageUsed + (jsByteLength f.content : Int) ≤ u.storageLimit)
    (he : findExisting st (categorizeFile f.filePath).table u.id f.filePath = some e)
    (hh : e.contentHash ≠ f.contentHash)
    (hd : e.deviceId ≠ deviceId) :
    processFile now u deviceId st f =
      (⟨f.filePath, PushStatus.conflict, some st.nextId, none⟩,
        { st with
          syncConflicts := st.syncConflicts ++ [{
            id := st.nextId, userId := u.id, filePath := f.filePath,
            deviceAId := e.deviceId, deviceBId := deviceId,
            contentA := e.content, contentB := f.content, createdAt := now }],
          nextId := st.nextId + 1 }) ∧
    (processFile now u deviceId st f).2.configFiles = st.configFiles ∧
    (processFile now u deviceId st f).2.sessionFiles = st.sessionFiles := by
  have hqif : ¬(u.storageUsed + (jsByteLength f.content : Int) > u.storageLimit) :=
    not_lt.mpr hq
  have hb1 : (e.contentHash == f.contentHash) = false := beq_eq_false_iff_ne.mpr hh
  have hb2 : (e.deviceId == deviceId) = false := beq_eq_false_iff_ne.mpr hd
  have h1 : processFile now u deviceId st f =
      (⟨f.filePath, PushStatus.conflict, some st.nextId, none⟩,
        { st with
          syncConflicts := st.syncConflicts ++ [{
            id := st.nextId, userId := u.id, filePath := f.filePath,
            deviceAId := e.deviceId, deviceBId := deviceId,
            contentA := e.content, contentB := f.content, createdAt := now }],
          nextId := st.nextId + 1 }) := by
    simp only [processFile, if_neg hqif, he, hb1, Bool.false_eq_true, if_false, bne,
      Bool.not_false, Bool.true_and, hb2, if_true]
  exact ⟨h1, by rw [h1], by rw [h1]⟩

/-- C1 (witness).  Device B pushes a one-byte divergent notes.md over the
entry device A stored; the step reports a conflict with the fresh id and
appends exactly one Conflict record carrying both contents. -/
theorem processFile_conflict_detection_witness :
    processFile 50 qUser "B" pState wFile =
      (⟨"notes.md", PushStatus.conflict, some 12, none⟩,
        { pState with
          syncConflicts := pState.syncConflicts ++ [{
            id := 12, userId := 1, filePath := "notes.md",
            deviceAId := "A", deviceBId := "B",
            contentA := "ca", contentB := "z", createdAt := 50 }],
          nextId := 13 }) :=
  (processFile_conflict_detection 50 qUser "B" pState wFile pEntryA
    (by decide) (by decide) (by decide) (by decide)).1

/-- Helper: an entry whose stored hash matches is a pure no-op success (state
returned unchanged) whenever the quota precheck passes. -/
theorem processFile_hash_match_noop
    (now : Int) (u : UserRec) (deviceId : String) (st : ServerState) (f : SyncFile)
    (e : CatalogEntry)
    (hq : u.storageUsed + (jsByteLength f.content : Int) ≤ u.storageLimit)
    (he : findExisting st (categorizeFile f.filePath).table u.id f.filePath = some e)
    (hh : e.contentHash = f.contentHash) :
    processFile now u deviceId st f = (⟨f.filePath, PushStatus.success, none, none⟩, st) := by
  have hqif : ¬(u.storageUsed + (jsByteLength f.content : Int) > u.storageLimit) :=
    not_lt.mpr hq
  have hb : (e.contentHash == f.contentHash) = true := beq_iff_eq.mpr hh
  simp only [processFile, if_neg hqif, he, hb, if_true]

/-- C4 (amended).  Re-pushing an inventory whose every entry already matches
the stored hash is idempotent provided each entry passes the storage-quota
precheck: every outcome is "success", no Conflict record is created and the
file tables are byte-for-byte unchanged.  (The quota proviso is forced: the
precheck runs before the hash comparison, see the counterexample.) -/
theorem pushSync_unchanged_inventory_idempotent
    (now : Int) (apiKey deviceId : String) (files : List SyncFile)
    (rl : RateLimitResult) (st : ServerState) (u : UserRec)
    (hu : validateApiKey st apiKey = some u)
    (hrl : rl.ok = true)
    (hfiles : ∀ f ∈ files, ∃ e,
      findExisting st (categorizeFile f.filePath).table u.id f.filePath = some e ∧
      e.contentHash = f.contentHash)
    (hquota : ∀ f ∈ files, u.storageUsed + (jsByteLength f.content : Int) ≤ u.storageLimit) :
    ∃ st', pushSync now apiKey deviceId files rl st =
        Except.ok (files.map (fun f => ⟨f.filePath, PushStatus.success, none, none⟩), st') ∧
      st'.configFiles = st.configFiles ∧
      st'.sessionFiles = st.sessionFiles ∧
      st'.syncConflicts = st.syncConflicts := by
  have hfold : ∀ (fs : List SyncFile),
      (∀ f ∈ fs, ∃ e,
        findExisting st (categorizeFile f.filePath).table u.id f.filePath = some e ∧
        e.contentHash = f.contentHash) →
      (∀ f ∈ fs, u.storageUsed + (jsByteLength f.content : Int) ≤ u.storageLimit) →
      ∀ acc : List PushEntryResult,
        fs.foldl (fun (acc : List PushEntryResult × ServerState) file =>
          let r := processFile now u deviceId acc.2 file
          (acc.1 ++ [r.1], r.2)) (acc, st) =
        (acc ++ fs.map (fun f => ⟨f.filePath, PushStatus.success, none, none⟩), st) := by
    intro fs
    induction fs with
    | nil => intro _ _ acc; simp
    | cons f fs ih =>
      intro hf hq acc
      obtain ⟨e, he, hh⟩ := hf f (List.mem_cons_self f fs)
      have hstep := processFile_hash_match_noop now u deviceId st f e
        (hq f (List.mem_cons_self f fs)) he hh
      simp only [List.foldl_cons, hstep]
      rw [ih (fun g hg => hf g (List.mem_cons_of_mem f hg))
        (fun g hg => hq g (List.mem_cons_of_mem f hg))]
      simp
  refine ⟨patchUser st u.id (fun uu => { uu with lastSyncAt := now }), ?_, ?_, ?_, ?_⟩
  · simp only [pushSync, hu, hrl, Bool.not_true, Bool.false_eq_true, if_false,
      hfold files hfiles hquota []]
    simp
  · simp [patchUser]
  · simp [patchUser]
  · simp [patchUser]

/-- C4 (witness).  With head-room under the ceiling, re-pushing the already
stored c.md succeeds as a no-op: success outcome, tables and conflicts
unchanged. -/
theorem pushSync_unchanged_inventory_idempotent_witness :
    ∃ st', pushSync 90 "k" "A" [sFileC] rlOkRes iState =
        Except.ok ([⟨"c.md", PushStatus.success, none, none⟩], st') ∧
      st'.configFiles = iState.configFiles ∧
      st'.sessionFiles = iState.sessionFiles ∧
      st'.syncConflicts = iState.syncConflicts :=
  pushSync_unchanged_inventory_idempotent 90 "k" "A" [sFileC] rlOkRes iState iUser rfl rfl
    (by
      intro f hf
      rcases List.mem_singleton.mp hf with rfl
      exact ⟨iEntry, by decide, by decide⟩)
    (by
      intro f hf
      rcases List.mem_singleton.mp hf with rfl
      decide)

theorem objFind_mapReplace (fs : List (String × JsonV)) (a : String) (b : JsonV) (k : String) :
    objFind (fs.map (fun p => if p.1 == a then (a, b) else p)) k =
      if (a == k) && objHasKey fs a then some b
      else objFind fs k := by
  induction fs with
  | nil => simp [objFind, objHasKey]
  | cons p ps ih =>
    obtain ⟨x, y⟩ := p
    by_cases hxa : x = a
    · subst hxa
      have hmap : List.map (fun p => if p.1 == x then (x, b) else p) ((x, y) :: ps)
          = (x, b) :: List.map (fun p => if p.1 == x then (x, b) else p) ps := by simp
      rw [hmap]
      by_cases hxk : x = k
      · subst hxk
        simp [objFind, objHasKey]
      · have hxk' : (x == k) = false := beq_eq_false_iff_ne.mpr hxk
        simp only [objFind, hxk', Bool.false_eq_true, if_false, ih, objHasKey,
          beq_self_eq_true, Bool.true_or]
        simp [hxk']
    · have hxa' : (x == a) = false := beq_eq_false_iff_ne.mpr hxa
      have hmap : List.map (fun p => if p.1 == a then (a, b) else p) ((x, y) :: ps)
          = (x, y) :: List.map (fun p => if p.1 == a then (a, b) else p) ps := by
        simp [hxa']
        try exact fun h => absurd h hxa
      rw [hmap]
      by_cases hxk : x = k
      · subst hxk
        have hak : (a == x) = false := beq_eq_false_iff_ne.mpr (fun h => hxa h.symm)
        simp [objFind, objHasKey, hak, hxa']
      · have hxk' : (x == k) = false := beq_eq_false_iff_ne.mpr hxk
        simp only [objFind, hxk', Bool.false_eq_true, if_false, objHasKey, hxa',
          Bool.false_or, ih]

theorem objFind_objInsert (fs : List (String × JsonV)) (a : String) (b : JsonV) (k : String) :
    objFind (objInsert fs a b) k = if a == k then some b else objFind fs k := by
  unfold objInsert
  by_cases hhit : objHasKey fs a = true
  · rw [if_pos hhit, objFind_mapReplace, hhit]
    by_cases hak : a = k
    · subst hak; simp
    · have hak' : (a == k) = false := beq_eq_false_iff_ne.mpr hak
      simp [hak']
  · rw [if_neg hhit]
    have hfalse : objHasKey fs a = false := by simpa using hhit
    clear hhit
    induction fs with
    | nil => simp [objFind]
    | cons p ps ih =>
      obtain ⟨x, y⟩ := p
      simp only [objHasKey, Bool.or_eq_false_iff] at hfalse
      simp only [List.cons_append, objFind]
      by_cases hxk : x = k
      · subst hxk
        by_cases hak : a = x
        · subst hak; rw [beq_self_eq_true] at hfalse; exact absurd hfalse.1 (by simp)
        · have hak' : (a == x) = false := beq_eq_false_iff_ne.mpr hak
          simp [hak']
      · have hxk' : (x == k) = false := beq_eq_false_iff_ne.mpr hxk
        simp only [hxk', Bool.false_eq_true, if_false]
        exact ih hfalse.2

theorem objFind_foldl_insert (ps init : List (String × JsonV)) (k : String) :
    objFind (ps.foldl (fun acc p => objInsert acc p.1 p.2) init) k =
      match objFindLast ps k with
      | some v => some v
      | none => objFind init k := by
  induction ps generalizing init with
  | nil => simp [objFindLast]
  | cons p ps ih =>
    obtain ⟨a, b⟩ := p
    simp only [List.foldl_cons, objFindLast]
    rw [ih (objInsert init a b)]
    cases hlast : objFindLast ps k with
    | some v => rfl
    | none =>
      rw [objFind_objInsert]
      by_cases hak : a = k
      · subst hak; simp
      · have hak' : (a == k) = false := beq_eq_false_iff_ne.mpr hak
        simp [hak']

theorem objFindLast_append (l1 l2 : List (String × JsonV)) (k : String) :
    objFindLast (l1 ++ l2) k =
      match objFindLast l2 k with
      | some v => some v
      | none => objFindLast l1 k := by
  induction l1 with
  | nil =>
    simp only [List.nil_append, objFindLast]
    cases objFindLast l2 k <;> rfl
  | cons p ps ih =>
    obtain ⟨a, b⟩ := p
    simp only [List.cons_append, objFindLast, List.append_eq, ih]
    cases objFindLast l2 k <;> cases objFindLast ps k <;> rfl

theorem objFindLast_eq_none_of_not_mem (fs : List (String × JsonV)) (k : String)
    (h : k ∉ fs.map Prod.fst) : objFindLast fs k = none := by
  induction fs with
  | nil => rfl
  | cons p ps ih =>
    obtain ⟨a, b⟩ := p
    simp only [List.map_cons, List.mem_cons, not_or] at h
    have hak : (a == k) = false := beq_eq_false_iff_ne.mpr (fun hh => h.1 hh.symm)
    simp [objFindLast, ih h.2, hak]

theorem objFindLast_eq_objFind_of_nodup (fs : List (String × JsonV)) (k : String)
    (h : (fs.map Prod.fst).Nodup) : objFindLast fs k = objFind fs k := by
  induction fs with
  | nil => rfl
  | cons p ps ih =>
    obtain ⟨a, b⟩ := p
    simp only [List.map_cons, List.nodup_cons] at h
    by_cases hak : a = k
    · subst hak
      rw [objFindLast, objFindLast_eq_none_of_not_mem ps a h.1]
      simp [objFind]
    · have hak' : (a == k) = false := beq_eq_false_iff_ne.mpr hak
      rw [objFindLast, ih h.2]
      simp only [objFind, hak', Bool.false_eq_true, if_false]
      cases objFind ps k <;> simp [hak']

/-- The field looked up in the object `{...objA, ...objB}`: the B side wins
on every colliding key, the A side fills the rest (for well-formed documents,
keys listed once per side). -/
theorem objFind_spreadMerge_obj (fa fb : List (String × JsonV)) (k : String)
    (ha : (fa.map Prod.fst).Nodup) (hb : (fb.map Prod.fst).Nodup) :
    objFind (spreadMerge (JsonV.obj fa) (JsonV.obj fb)) k =
      match objFind fb k with
      | some v => some v
      | none => objFind fa k := by
  unfold spreadMerge spreadFields
  rw [objFind_foldl_insert, objFindLast_append,
    objFindLast_eq_objFind_of_nodup fa k ha, objFindLast_eq_objFind_of_nodup fb k hb]
  cases objFind fb k with
  | some v => rfl
  | none => cases objFind fa k <;> simp [objFind]

/-- C5 (confirmed).  keep_both on a .json conflict resolves successfully to
mergeJSON of the two sides; when both sides parse as key-value documents the
result is their shallow spread-merge pretty-printed, in which every key
present on the B side keeps the B value and every other key falls back to
the A side; when either side fails to parse the result is the textual
conflict-marker concatenation rather than a failure; and the merge is a
pure function of the two contents (two runs give the same output), with the
specification example producing the document with a mapped to 2 and b to 3. -/
theorem resolveConflict_keep_both_json_merge
    (hashFn : String → String) (now : Int) (apiKey deviceId : String)
    (conflictId : Nat) (st : ServerState) (u : UserRec) (c : ConflictRec)
    (hu : validateApiKey st apiKey = some u)
    (hc : findConflict st conflictId u.id = some c)
    (hext : jsEndsWith c.filePath ".json" = true) :
    (∃ st1, resolveConflict hashFn now apiKey conflictId Resolution.keep_both none deviceId st
      = Except.ok (mergeJSON c.contentA c.contentB, st1)) ∧
    (∀ fa fb, parseJSON c.contentA = some (JsonV.obj fa) →
      parseJSON c.contentB = some (JsonV.obj fb) →
      mergeJSON c.contentA c.contentB
        = stringifyPretty "" (JsonV.obj (spreadMerge (JsonV.obj fa) (JsonV.obj fb))) ∧
      ((fa.map Prod.fst).Nodup → (fb.map Prod.fst).Nodup →
        (∀ k v, objFind fb k = some v →
          objFind (spreadMerge (JsonV.obj fa) (JsonV.obj fb)) k = some v) ∧
        (∀ k, objFind fb k = none →
          objFind (spreadMerge (JsonV.obj fa) (JsonV.obj fb)) k = objFind fa k))) ∧
    ((parseJSON c.contentA = none ∨ parseJSON c.contentB = none) →
      mergeJSON c.contentA c.contentB
        = "<<<<<<< VERSION A\n" ++ c.contentA ++ "\n=======\n" ++ c.contentB
          ++ "\n>>>>>>> VERSION B") ∧
    (parseJSON (mergeJSON jsonA jsonB)
      = some (JsonV.obj [("a", JsonV.num 2), ("b", JsonV.num 3)]) ∧
     mergeJSON jsonA jsonB = mergeJSON jsonA jsonB) := by
  refine ⟨?_, ?_, ?_, ?_, rfl⟩
  · simp only [resolveConflict, hu, hc, resolutionContent, hext, if_true]
    exact ⟨_, rfl⟩
  · intro fa fb hA hB
    refine ⟨by simp only [mergeJSON, hA, hB], fun hna hnb => ⟨?_, ?_⟩⟩
    · intro k v hk
      rw [objFind_spreadMerge_obj fa fb k hna hnb, hk]
    · intro k hk
      rw [objFind_spreadMerge_obj fa fb k hna hnb, hk]
  · intro h
    rcases h with hA | hB
    · cases hpb : parseJSON c.contentB <;> simp [mergeJSON, hA, hpb]
    · cases hpa : parseJSON c.contentA <;> simp [mergeJSON, hB, hpa]
  · rfl

/-- C5 (witness).  Resolving the concrete settings.json conflict between
sides with a mapped to 1 and a mapped to 2, b to 3: keep_both succeeds with
the merge whose parsed document is exactly a mapped to 2, b mapped to 3. -/
theorem resolveConflict_keep_both_json_merge_witness :
    (∃ st1, resolveConflict (fun s => s) 99 "k" 7 Resolution.keep_both none "C" jState
      = Except.ok (mergeJSON jsonA jsonB, st1)) ∧
    parseJSON (mergeJSON jsonA jsonB)
      = some (JsonV.obj [("a", JsonV.num 2), ("b", JsonV.num 3)]) := by
  obtain ⟨h1, _, _, h4, _⟩ :=
    resolveConflict_keep_both_json_merge (fun s => s) 99 "k" "C" 7 jState qUser jConflict
      rfl rfl (by decide)
  exact ⟨h1, h4⟩

theorem mapGet_mapSet_self (m : List (JsonV × JsonV)) (k v : JsonV) :
    mapGet (mapSet m k v) k = some v := by
  induction m with
  | nil => simp [mapSet, mapGet, jsonBeq_refl]
  | cons p ps ih =>
    obtain ⟨a, b⟩ := p
    cases hak : jsonBeq a k with
    | true => simp [mapSet, hak, mapGet, jsonBeq_refl]
    | false => simp [mapSet, hak, mapGet, ih]

theorem mapGet_mapSet_other (m : List (JsonV × JsonV)) (k v q : JsonV)
    (h : jsonBeq k q = false) :
    mapGet (mapSet m k v) q = mapGet m q := by
  induction m with
  | nil => simp [mapSet, mapGet, h]
  | cons p ps ih =>
    obtain ⟨a, b⟩ := p
    cases hak : jsonBeq a k with
    | true =>
      have haq : jsonBeq a q = false := by rw [eq_of_jsonBeq hak]; exact h
      simp [mapSet, hak, mapGet, h, haq]
    | false => simp [mapSet, hak, mapGet, ih]

theorem mem_snd_of_mapGet (m : List (JsonV × JsonV)) (k x : JsonV)
    (h : mapGet m k = some x) : x ∈ m.map Prod.snd := by
  induction m with
  | nil => simp [mapGet] at h
  | cons p ps ih =>
    obtain ⟨a, b⟩ := p
    cases hak : jsonBeq a k with
    | true =>
      rw [mapGet, hak, if_pos rfl] at h
      simp only [Option.some.injEq] at h
      simp [h]
    | false =>
      rw [mapGet, hak] at h
      simp only [Bool.false_eq_true, if_false] at h
      simp [ih h]

/-- One jsonlStep of a line that does not collide with the raw-line key
preserves the binding of the raw line. -/
theorem jsonlStep_preserves_raw (m : List (JsonV × JsonV)) (lraw l2 : String)
    (hnp : parseJSON lraw = none)
    (hk : ∀ v, parseJSON l2 = some v → v ≠ JsonV.null → jsIdKeyV v l2 ≠ JsonV.str lraw)
    (hm : mapGet m (JsonV.str lraw) = some (JsonV.str lraw)) :
    mapGet (jsonlStep m l2) (JsonV.str lraw) = some (JsonV.str lraw) := by
  cases hp : parseJSON l2 with
  | none =>
    by_cases heq : l2 = lraw
    · subst heq
      simp only [jsonlStep, hp]
      exact mapGet_mapSet_self m (JsonV.str l2) (JsonV.str l2)
    · have hb : jsonBeq (JsonV.str l2) (JsonV.str lraw) = false :=
        jsonBeq_ne _ _ (by intro hh; exact heq (JsonV.str.inj hh))
      simp only [jsonlStep, hp]
      rw [mapGet_mapSet_other m _ _ _ hb]
      exact hm
  | some v =>
    cases hnull : jsonBeq v JsonV.null with
    | true =>
      have hveq : v = JsonV.null := eq_of_jsonBeq hnull
      have heq : l2 ≠ lraw := by
        intro hh
        rw [hh, hnp] at hp
        exact Option.noConfusion hp
      have hb : jsonBeq (JsonV.str l2) (JsonV.str lraw) = false :=
        jsonBeq_ne _ _ (by intro hh; exact heq (JsonV.str.inj hh))
      simp only [jsonlStep, hp, hnull, if_pos]
      rw [mapGet_mapSet_other m _ _ _ hb]
      exact hm
    | false =>
      have hvne : v ≠ JsonV.null := by
        intro hh
        rw [hh, jsonBeq_refl] at hnull
        exact Bool.noConfusion hnull
      have hb : jsonBeq (jsIdKeyV v l2) (JsonV.str lraw) = false :=
        jsonBeq_ne _ _ (hk v hp hvne)
      simp only [jsonlStep, hp, hnull, Bool.false_eq_true, if_false]
      by_cases hhas : mapHas m (jsIdKeyV v l2) = true
      · rw [if_pos hhas]
        cases hget : mapGet m (jsIdKeyV v l2) with
        | none => exact hm
        | some existing =>
          dsimp only
          by_cases hts : tsTruthyGt v existing = true
          · rw [if_pos hts, mapGet_mapSet_other m _ _ _ hb]; exact hm
          · rw [if_neg hts]; exact hm
      · rw [if_neg hhas, mapGet_mapSet_other m _ _ _ hb]; exact hm

theorem jsonlFold_preserves_raw (post : List String) (lraw : String)
    (hnp : parseJSON lraw = none)
    (hkeys : ∀ l2 ∈ post, ∀ v, parseJSON l2 = some v → v ≠ JsonV.null →
      jsIdKeyV v l2 ≠ JsonV.str lraw) :
    ∀ m, mapGet m (JsonV.str lraw) = some (JsonV.str lraw) →
      mapGet (post.foldl jsonlStep m) (JsonV.str lraw) = some (JsonV.str lraw) := by
  induction post with
  | nil => intro m hm; exact hm
  | cons l2 post ih =>
    intro m hm
    simp only [List.foldl_cons]
    exact ih (fun l hl => hkeys l (List.mem_cons_of_mem l2 hl))
      (jsonlStep m l2) (jsonlStep_preserves_raw m lraw l2 hnp
        (hkeys l2 (List.mem_cons_self l2 post)) hm)

theorem intercalate_single_line (s : String) : String.intercalate "\n" [s] = s := by
  simp [String.intercalate, String.intercalate.go]

theorem intercalate_two_lines (a b : String) :
    String.intercalate "\n" [a, b] = a ++ "\n" ++ b := by
  simp [String.intercalate, String.intercalate.go]

/-- C6 (amended).  keep_both on a .jsonl conflict resolves to mergeJSONL,
which parses each non-empty line of both sides, deduplicates by the
id/uuid/timestamp identity (raw line text as fallback), lets the record with
the larger truthy timestamp survive a shared identity, keeps records with
distinct identities from both sides, sorts the all-records output by
timestamp ascending one serialized record per line, and keeps a non-parsing
line verbatim provided no parsed record carries that exact line text as its
identity (the proviso the counterexample forces: identities and raw lines
share one key space). -/
theorem resolveConflict_keep_both_jsonl_merge
    (hashFn : String → String) (now : Int) (apiKey deviceId : String)
    (conflictId : Nat) (st : ServerState) (u : UserRec) (c : ConflictRec)
    (hu : validateApiKey st apiKey = some u)
    (hc : findConflict st conflictId u.id = some c)
    (hnotjson : jsEndsWith c.filePath ".json" = false)
    (hext : jsEndsWith c.filePath ".jsonl" = true) :
    (∃ st1, resolveConflict hashFn now apiKey conflictId Resolution.keep_both none deviceId st
      = Except.ok (mergeJSONL c.contentA c.contentB, st1)) ∧
    (mergeJSONLItems c.contentA c.contentB).Perm
      ((jsonlMap c.contentA c.contentB).map Prod.snd) ∧
    (∀ la lb fa fb k,
      nonEmptyLines c.contentA = [la] → nonEmptyLines c.contentB = [lb] →
      parseJSON la = some (JsonV.obj fa) → parseJSON lb = some (JsonV.obj fb) →
      jsIdKeyV (JsonV.obj fa) la = k → jsIdKeyV (JsonV.obj fb) lb = k →
      tsTruthyGt (JsonV.obj fb) (JsonV.obj fa) = true →
      mergeJSONLItems c.contentA c.contentB = [JsonV.obj fb] ∧
      mergeJSONL c.contentA c.contentB = serializeItem (JsonV.obj fb)) ∧
    (∀ la lb fa fb,
      nonEmptyLines c.contentA = [la] → nonEmptyLines c.contentB = [lb] →
      parseJSON la = some (JsonV.obj fa) → parseJSON lb = some (JsonV.obj fb) →
      jsIdKeyV (JsonV.obj fa) la ≠ jsIdKeyV (JsonV.obj fb) lb →
      tsOrZero (JsonV.obj fa) ≤ tsOrZero (JsonV.obj fb) →
      mergeJSONLItems c.contentA c.contentB = [JsonV.obj fa, JsonV.obj fb] ∧
      mergeJSONL c.contentA c.contentB
        = serializeItem (JsonV.obj fa) ++ "\n" ++ serializeItem (JsonV.obj fb)) ∧
    (∀ lraw, lraw ∈ nonEmptyLines c.contentA ++ nonEmptyLines c.contentB →
      parseJSON lraw = none →
      (∀ l2 ∈ nonEmptyLines c.contentA ++ nonEmptyLines c.contentB, ∀ v,
        parseJSON l2 = some v → v ≠ JsonV.null → jsIdKeyV v l2 ≠ JsonV.str lraw) →
      lraw ∈ mergeJSONLLines c.contentA c.contentB) ∧
    ((∀ v ∈ mergeJSONLItems c.contentA c.contentB, ∃ fs, v = JsonV.obj fs) →
      (mergeJSONLItems c.contentA c.contentB).Pairwise
        (fun x y => tsOrZero x ≤ tsOrZero y)) ∧
    (mergeJSONL lineRec5 lineRec9 = lineRec9 ∧
     mergeJSONL lineRec9 lineRec3 = lineRec3 ++ "\n" ++ lineRec9) := by
  refine ⟨?_, ?_, ?_, ?_, ?_, ?_, by decide, by decide⟩
  · simp only [resolveConflict, hu, hc, resolutionContent, hext, hnotjson,
      Bool.false_eq_true, if_false, if_true]
    exact ⟨_, rfl⟩
  · exact sortCmp_perm _ _
  · intro la lb fa fb k hla hlb hpa hpb hka hkb hts
    have h1 : jsonlStep [] la = [(k, JsonV.obj fa)] := by
      simp only [jsonlStep, hpa]
      rw [show jsonBeq (JsonV.obj fa) JsonV.null = false from rfl]
      simp only [Bool.false_eq_true, if_false]
      rw [hka]
      simp [mapHas, mapGet, mapSet]
    have h2 : jsonlStep [(k, JsonV.obj fa)] lb = [(k, JsonV.obj fb)] := by
      simp only [jsonlStep, hpb]
      rw [show jsonBeq (JsonV.obj fb) JsonV.null = false from rfl]
      simp only [Bool.false_eq_true, if_false]
      rw [hkb]
      simp [mapHas, mapGet, jsonBeq_refl, hts, mapSet]
    have hmap : jsonlMap c.contentA c.contentB = [(k, JsonV.obj fb)] := by
      unfold jsonlMap
      rw [hla, hlb]
      rw [show ([la] ++ [lb] : List String) = [la, lb] from rfl]
      simp only [List.foldl_cons, List.foldl_nil, h1, h2]
    have hitems : mergeJSONLItems c.contentA c.contentB = [JsonV.obj fb] := by
      unfold mergeJSONLItems
      rw [hmap]
      simp [sortCmp, insCmp]
    refine ⟨hitems, ?_⟩
    unfold mergeJSONL mergeJSONLLines
    rw [hitems]
    simp only [List.map_cons, List.map_nil]
    exact intercalate_single_line _
  · intro la lb fa fb hla hlb hpa hpb hne hle
    have hbk : jsonBeq (jsIdKeyV (JsonV.obj fa) la) (jsIdKeyV (JsonV.obj fb) lb) = false :=
      jsonBeq_ne _ _ hne
    have h1 : jsonlStep [] la = [(jsIdKeyV (JsonV.obj fa) la, JsonV.obj fa)] := by
      simp only [jsonlStep, hpa]
      rw [show jsonBeq (JsonV.obj fa) JsonV.null = false from rfl]
      simp only [Bool.false_eq_true, if_false]
      simp [mapHas, mapGet, mapSet]
    have h2 : jsonlStep [(jsIdKeyV (JsonV.obj fa) la, JsonV.obj fa)] lb =
        [(jsIdKeyV (JsonV.obj fa) la, JsonV.obj fa),
         (jsIdKeyV (JsonV.obj fb) lb, JsonV.obj fb)] := by
      simp only [jsonlStep, hpb]
      rw [show jsonBeq (JsonV.obj fb) JsonV.null = false from rfl]
      simp only [Bool.false_eq_true, if_false]
      simp [mapHas, mapGet, hbk, mapSet]
    have hmap : jsonlMap c.contentA c.contentB =
        [(jsIdKeyV (JsonV.obj fa) la, JsonV.obj fa),
         (jsIdKeyV (JsonV.obj fb) lb, JsonV.obj fb)] := by
      unfold jsonlMap
      rw [hla, hlb]
      rw [show ([la] ++ [lb] : List String) = [la, lb] from rfl]
      simp only [List.foldl_cons, List.foldl_nil, h1, h2]
    have hcmple : jsonlCmp (JsonV.obj fa) (JsonV.obj fb) ≤ 0 := by
      simp only [jsonlCmp, jsTypeofObj, Bool.and_self, if_true]
      omega
    have hitems : mergeJSONLItems c.contentA c.contentB =
        [JsonV.obj fa, JsonV.obj fb] := by
      unfold mergeJSONLItems
      rw [hmap]
      simp only [List.map_cons, List.map_nil, sortCmp, List.foldl_cons, List.foldl_nil]
      simp [insCmp, hcmple]
    refine ⟨hitems, ?_⟩
    unfold mergeJSONL mergeJSONLLines
    rw [hitems]
    simp only [List.map_cons, List.map_nil]
    exact intercalate_two_lines _ _
  · intro lraw hmem hnp hkeys
    obtain ⟨pre, post, hsplit⟩ := List.append_of_mem hmem
    have hbind : mapGet (jsonlMap c.contentA c.contentB) (JsonV.str lraw)
        = some (JsonV.str lraw) := by
      unfold jsonlMap
      rw [hsplit, List.foldl_append, List.foldl_cons]
      refine jsonlFold_preserves_raw post lraw hnp
        (fun l2 hl2 => hkeys l2 (by
          rw [hsplit]
          exact List.mem_append_right pre (List.mem_cons_of_mem lraw hl2))) _ ?_
      simp only [jsonlStep, hnp]
      exact mapGet_mapSet_self _ _ _
    have hvmem : (JsonV.str lraw) ∈ (jsonlMap c.contentA c.contentB).map Prod.snd :=
      mem_snd_of_mapGet _ _ _ hbind
    have hsorted : (JsonV.str lraw) ∈ mergeJSONLItems c.contentA c.contentB :=
      (mem_sortCmp _ _ _).mpr hvmem
    exact List.mem_map.mpr ⟨JsonV.str lraw, hsorted, rfl⟩
  · intro hobj
    have hvals : ∀ v ∈ (jsonlMap c.contentA c.contentB).map Prod.snd,
        ∃ fs, v = JsonV.obj fs := by
      intro v hv
      exact hobj v ((mem_sortCmp _ _ _).mpr hv)
    have hpair := sortCmp_pairwise jsonlCmp (fun v => ∃ fs, v = JsonV.obj fs)
      (by
        rintro a b ⟨fa, rfl⟩ ⟨fb, rfl⟩
        simp only [jsonlCmp, jsTypeofObj, Bool.and_self, if_true]
        omega)
      (by
        rintro a b d ⟨fa, rfl⟩ ⟨fb, rfl⟩ ⟨fd, rfl⟩ h1 h2
        simp only [jsonlCmp, jsTypeofObj, Bool.and_self, if_true] at h1 h2 ⊢
        omega)
      ((jsonlMap c.contentA c.contentB).map Prod.snd) hvals
    refine List.Pairwise.imp_of_mem ?_ hpair
    intro a b ha hb hcmp
    obtain ⟨fa, rfl⟩ := hobj a ha
    obtain ⟨fb, rfl⟩ := hobj b hb
    simp only [jsonlCmp, jsTypeofObj, Bool.and_self, if_true] at hcmp
    omega

/-- C6 (counterexample).  Non-parsing lines are not always kept verbatim:
identities and raw lines share the Map key space, so the raw line "x" is
superseded by a later record whose id field is the string "x" with a truthy
larger timestamp — the output holds only the record and the line "x" is
gone. -/
theorem mergeJSONL_raw_line_superseded_counterexample :
    parseJSON "x" = none ∧
    "x" ∈ nonEmptyLines "x" ∧
    mergeJSONL "x" "\x7b\"id\":\"x\",\"timestamp\":5\x7d"
      = "\x7b\"id\":\"x\",\"timestamp\":5\x7d" ∧
    "x" ∉ mergeJSONLLines "x" "\x7b\"id\":\"x\",\"timestamp\":5\x7d" :=
  ⟨rfl, by decide, by decide, by decide⟩

/-- C6 (witness).  The concrete history.jsonl conflict: the sides holding
records with id 1 and timestamps 5 and 9 merge to the single timestamp-9
record, and sides with distinct ids keep both records sorted by timestamp
ascending. -/
theorem resolveConflict_keep_both_jsonl_merge_witness :
    (∃ st1, resolveConflict (fun s => s) 99 "k" 8 Resolution.keep_both none "C" lState
      = Except.ok (mergeJSONL lineRec5 lineRec9, st1)) ∧
    mergeJSONL lineRec5 lineRec9 = lineRec9 ∧
    mergeJSONL lineRec9 lineRec3 = lineRec3 ++ "\n" ++ lineRec9 := by
  obtain ⟨h1, _, _, _, _, _, h7⟩ :=
    resolveConflict_keep_both_jsonl_merge (fun s => s) 99 "k" "C" 8 lState qUser lConflict
      rfl rfl (by decide) (by decide)
  exact ⟨h1, h7.1, h7.2⟩

theorem mem_projectSessionFiles (dname : String) (subs : List FsNode)
    (cnd : SessionCandidate) :
    cnd ∈ projectSessionFiles dname subs ↔
      ∃ sub ∈ subs, jsEndsWith sub.name ".jsonl" = true ∧
        jsStartsWith sub.name "agent-" = false ∧
        cnd = ⟨"projects/" ++ dname ++ "/" ++ sub.name, sub.mtime, sub.contentOpt⟩ := by
  induction subs with
  | nil => simp [projectSessionFiles]
  | cons sub rest ih =>
    simp only [projectSessionFiles, List.foldr_cons] at *
    by_cases hcond : (jsEndsWith sub.name ".jsonl" && !(jsStartsWith sub.name "agent-")) = true
    · rw [if_pos hcond]
      rw [Bool.and_eq_true, Bool.not_eq_true'] at hcond
      constructor
      · intro hmem
        rcases List.mem_cons.mp hmem with rfl | hmem2
        · exact ⟨sub, List.mem_cons_self sub rest, hcond.1, hcond.2, rfl⟩
        · obtain ⟨s2, hs2, h1, h2, h3⟩ := ih.mp hmem2
          exact ⟨s2, List.mem_cons_of_mem sub hs2, h1, h2, h3⟩
      · rintro ⟨s2, hs2, h1, h2, h3⟩
        rcases List.mem_cons.mp hs2 with rfl | hs3
        · rw [h3]
          exact List.mem_cons_self _ _
        · exact List.mem_cons_of_mem _ (ih.mpr ⟨s2, hs3, h1, h2, h3⟩)
    · rw [if_neg hcond]
      rw [Bool.and_eq_true, Bool.not_eq_true'] at hcond
      constructor
      · intro hmem
        obtain ⟨s2, hs2, h1, h2, h3⟩ := ih.mp hmem
        exact ⟨s2, List.mem_cons_of_mem sub hs2, h1, h2, h3⟩
      · rintro ⟨s2, hs2, h1, h2, h3⟩
        rcases List.mem_cons.mp hs2 with rfl | hs3
        · exact absurd ⟨h1, h2⟩ hcond
        · exact ih.mpr ⟨s2, hs3, h1, h2, h3⟩

theorem mem_allProjectSessions (entries : List FsNode) (cnd : SessionCandidate) :
    cnd ∈ allProjectSessions entries ↔
      ∃ dname dm subs, FsNode.dir dname dm subs ∈ entries ∧
        cnd ∈ projectSessionFiles dname subs := by
  induction entries with
  | nil => simp [allProjectSessions]
  | cons e es ih =>
    cases e with
    | file n m co =>
      simp only [allProjectSessions, List.foldr_cons] at *
      rw [ih]
      constructor
      · rintro ⟨dname, dm, subs, hmem, hc⟩
        exact ⟨dname, dm, subs, List.mem_cons_of_mem _ hmem, hc⟩
      · rintro ⟨dname, dm, subs, hmem, hc⟩
        rcases List.mem_cons.mp hmem with heq | hmem2
        · exact absurd heq (by intro hh; exact FsNode.noConfusion hh)
        · exact ⟨dname, dm, subs, hmem2, hc⟩
    | dir n m subs =>
      simp only [allProjectSessions, List.foldr_cons] at *
      constructor
      · intro hmem
        rcases List.mem_append.mp hmem with hL | hR
        · exact ⟨n, m, subs, List.mem_cons_self _ _, hL⟩
        · obtain ⟨dname, dm, subs2, hmem2, hc⟩ := ih.mp hR
          exact ⟨dname, dm, subs2, List.mem_cons_of_mem _ hmem2, hc⟩
      · rintro ⟨dname, dm, subs2, hmem2, hc⟩
        rcases List.mem_cons.mp hmem2 with heq | hmem3
        · injection heq with h1 h2 h3
          subst h1
          subst h3
          exact List.mem_append.mpr (Or.inl hc)
        · exact List.mem_append.mpr (Or.inr (ih.mpr ⟨dname, dm, subs2, hmem3, hc⟩))

/-- Taking the first n elements of the descending stable sort selects n
elements that strictly dominate every omitted element, when the keys are
pairwise distinct. -/
theorem sortCmp_take_largest (key : α → Int) (n : Nat) (xs : List α)
    (hlen : n < xs.length)
    (hdist : xs.Pairwise (fun a b => key a ≠ key b)) :
    ∃ rest,
      ((sortCmp (fun a b => key b - key a) xs).take n ++ rest).Perm xs ∧
      ((sortCmp (fun a b => key b - key a) xs).take n).length = n ∧
      (∀ x ∈ (sortCmp (fun a b => key b - key a) xs).take n, ∀ y ∈ rest,
        key y < key x) := by
  have hperm : (sortCmp (fun a b => key b - key a) xs).Perm xs := sortCmp_perm _ _
  have hsorted : (sortCmp (fun a b => key b - key a) xs).Pairwise
      (fun a b => (fun a b => key b - key a) a b ≤ 0) :=
    sortCmp_pairwise _ (fun _ => True)
      (fun a b _ _ => by omega) (fun a b c _ _ _ h1 h2 => by omega) xs (fun _ _ => trivial)
  refine ⟨(sortCmp (fun a b => key b - key a) xs).drop n, ?_, ?_, ?_⟩
  · rw [List.take_append_drop]; exact hperm
  · rw [List.length_take, hperm.length_eq]; omega
  · have hdistL : (sortCmp (fun a b => key b - key a) xs).Pairwise
        (fun a b => key a ≠ key b) :=
      (hperm.pairwise_iff (fun hxy he => hxy he.symm)).mpr hdist
    have hsplit : sortCmp (fun a b => key b - key a) xs =
        (sortCmp (fun a b => key b - key a) xs).take n
          ++ (sortCmp (fun a b => key b - key a) xs).drop n :=
      (List.take_append_drop n _).symm
    rw [hsplit] at hsorted hdistL
    intro x hx y hy
    have h1 := (List.pairwise_append.mp hsorted).2.2 x hx y hy
    have h2 := (List.pairwise_append.mp hdistL).2.2 x hx y hy
    simp only at h1
    omega

/-- C7 (confirmed).  Retention truncation of the inventory scan.  First: a
limited directory (todos, session-env) holding more than ten plain eligible
files with distinct mtimes contributes exactly ten entries, the scan of the
directory being the image of a ten-element selection every member of which
is strictly newer than every omitted file — the ten most recently modified,
chosen by sorting on mtime descending and truncating.  Second: the projects
directory contributes exactly the ten most recently modified readable
session candidates across all project subdirectories combined, under the
same distinct-mtime proviso.  Third: the candidate set ranges over all
subdirectories and holds exactly the .jsonl files not named with the
derived agent- marker. -/
theorem inventory_retention_truncation (hashFn : String → String) :
    (∀ (fuel : Nat) (entries : List FsNode) (rel d : String), d ∈ limitedDirs →
      (∀ e ∈ entries, e.isDir = false ∧ shouldSyncFile e.name (some d) = true) →
      entries.Pairwise (fun a b => a.mtime ≠ b.mtime) →
      10 < entries.length →
      ∃ chosen rest : List FsNode,
        traverseDir hashFn (fuel + 1) entries rel (some d) =
          chosen.map (fun nd =>
            ⟨pathJoin rel nd.name, nd.contentD, hashFn nd.contentD, nd.mtime⟩) ∧
        chosen.length = 10 ∧ (chosen ++ rest).Perm entries ∧
        (∀ x ∈ chosen, ∀ y ∈ rest, y.mtime < x.mtime)) ∧
    (∀ (fuel : Nat) (entries : List FsNode) (rel : String),
      (∀ cnd ∈ allProjectSessions entries, cnd.content.isSome = true) →
      (allProjectSessions entries).Pairwise (fun a b => a.mtime ≠ b.mtime) →
      10 < (allProjectSessions entries).length →
      ∃ chosen rest : List SessionCandidate,
        traverseDir hashFn (fuel + 1) entries rel (some "projects") =
          chosen.map (fun cnd =>
            ⟨cnd.relPath, cnd.content.getD "", hashFn (cnd.content.getD ""), cnd.mtime⟩) ∧
        chosen.length = 10 ∧ (chosen ++ rest).Perm (allProjectSessions entries) ∧
        (∀ x ∈ chosen, ∀ y ∈ rest, y.mtime < x.mtime)) ∧
    (∀ entries cnd, cnd ∈ allProjectSessions entries ↔
      ∃ dname dm subs sub, FsNode.dir dname dm subs ∈ entries ∧ sub ∈ subs ∧
        jsEndsWith sub.name ".jsonl" = true ∧ jsStartsWith sub.name "agent-" = false ∧
        cnd = ⟨"projects/" ++ dname ++ "/" ++ sub.name, sub.mtime, sub.contentOpt⟩) := by
  refine ⟨?_, ?_, ?_⟩
  · intro fuel entries rel d hd hfiles hdist hlen
    have hd' : d = "todos" ∨ d = "session-env" := by simpa [limitedDirs] using hd
    have hx : excludedDirs.contains d = false := by rcases hd' with rfl | rfl <;> decide
    have hpj : ((some d : Option String) == some "projects") = false := by
      rcases hd' with rfl | rfl <;> decide
    have hlim : limitedDirs.contains d = true := by rcases hd' with rfl | rfl <;> decide
    have hred : traverseDir hashFn (fuel + 1) entries rel (some d) =
        (getRecentFiles entries maxRecentFiles).foldr (fun node acc =>
          match node with
          | FsNode.dir n _ subEntries =>
            traverseDir hashFn fuel subEntries (pathJoin rel n) (some n) ++ acc
          | FsNode.file n m content =>
            if shouldSyncFile n (some d) then
              ⟨pathJoin rel n, content, hashFn content, m⟩ :: acc
            else acc) [] := by
      simp only [traverseDir, hx, hpj, hlim, Bool.false_eq_true, if_false, if_true]
    obtain ⟨rest, hperm, hlen10, hdom⟩ :=
      sortCmp_take_largest FsNode.mtime 10 entries hlen hdist
    refine ⟨(sortCmp (fun a b => b.mtime - a.mtime) entries).take 10, rest, ?_,
      hlen10, hperm, hdom⟩
    rw [hred]
    have hsub : ∀ x ∈ (sortCmp (fun a b => b.mtime - a.mtime) entries).take 10,
        x ∈ entries := fun x hx2 =>
      (sortCmp_perm _ _).mem_iff.mp (List.mem_of_mem_take hx2)
    have hfold : ∀ (l : List FsNode),
        (∀ e ∈ l, e.isDir = false ∧ shouldSyncFile e.name (some d) = true) →
        l.foldr (fun node acc =>
          match node with
          | FsNode.dir n _ subEntries =>
            traverseDir hashFn fuel subEntries (pathJoin rel n) (some n) ++ acc
          | FsNode.file n m content =>
            if shouldSyncFile n (some d) then
              ⟨pathJoin rel n, content, hashFn content, m⟩ :: acc
            else acc) [] =
        l.map (fun nd =>
          ⟨pathJoin rel nd.name, nd.contentD, hashFn nd.contentD, nd.mtime⟩) := by
      intro l hl
      induction l with
      | nil => rfl
      | cons e es ih =>
        have he := hl e (List.mem_cons_self e es)
        cases e with
        | dir n m subEntries => exact absurd he.1 (by simp [FsNode.isDir])
        | file n m content =>
          have he2 : shouldSyncFile n (some d) = true := he.2
          simp only [List.foldr_cons, List.map_cons, he2, if_true,
            ih (fun g hg => hl g (List.mem_cons_of_mem _ hg))]
          rfl
    exact hfold _ (fun e he => hfiles e (hsub e he))
  · intro fuel entries rel hcontent hdist hlen
    have hred : traverseDir hashFn (fuel + 1) entries rel (some "projects") =
        (getRecentSessions entries maxRecentSessions).foldr (fun c acc =>
          match c.content with
          | some content =>
            ({ filePath := c.relPath, content := content,
               contentHash := hashFn content, lastModified := c.mtime } : ScanEntry) :: acc
          | none => acc) [] := by
      simp only [traverseDir]
      rfl
    obtain ⟨rest, hperm, hlen10, hdom⟩ :=
      sortCmp_take_largest SessionCandidate.mtime 10 (allProjectSessions entries) hlen hdist
    refine ⟨(sortCmp (fun a b => b.mtime - a.mtime) (allProjectSessions entries)).take 10,
      rest, ?_, hlen10, hperm, hdom⟩
    rw [hred]
    have hsub : ∀ x ∈ (sortCmp (fun a b => b.mtime - a.mtime)
        (allProjectSessions entries)).take 10, x ∈ allProjectSessions entries :=
      fun x hx2 => (sortCmp_perm _ _).mem_iff.mp (List.mem_of_mem_take hx2)
    have hfold : ∀ (l : List SessionCandidate),
        (∀ c ∈ l, c.content.isSome = true) →
        l.foldr (fun c acc =>
          match c.content with
          | some content =>
            ({ filePath := c.relPath, content := content,
               contentHash := hashFn content, lastModified := c.mtime } : ScanEntry) :: acc
          | none => acc) [] =
        l.map (fun cnd =>
          ⟨cnd.relPath, cnd.content.getD "", hashFn (cnd.content.getD ""), cnd.mtime⟩) := by
      intro l hl
      induction l with
      | nil => rfl
      | cons c cs ih =>
        obtain ⟨x, hx'⟩ := Option.isSome_iff_exists.mp (hl c (List.mem_cons_self c cs))
        simp only [List.foldr_cons, List.map_cons, hx',
          ih (fun g hg => hl g (List.mem_cons_of_mem _ hg))]
        rfl
    exact hfold _ (fun c hc => hcontent c (hsub c hc))
  · intro entries cnd
    rw [mem_allProjectSessions]
    constructor
    · rintro ⟨dname, dm, subs, hmem, hc⟩
      obtain ⟨sub, hsub, h1, h2, h3⟩ := (mem_projectSessionFiles _ _ _).mp hc
      exact ⟨dname, dm, subs, sub, hmem, hsub, h1, h2, h3⟩
    · rintro ⟨dname, dm, subs, sub, hmem, hsub, h1, h2, h3⟩
      exact ⟨dname, dm, subs, hmem,
        (mem_projectSessionFiles _ _ _).mpr ⟨sub, hsub, h1, h2, h3⟩⟩

/-- C7 (witness).  Fifteen distinct-mtime files in todos contribute exactly
ten strictly-newest entries, and twelve sessions over four project
subdirectories (plus one agent- artifact and a stray file, both skipped)
contribute exactly the ten newest across the subdirectories combined. -/
theorem inventory_retention_truncation_witness :
    (∃ chosen rest : List FsNode,
      traverseDir (fun s => s) 2 todosEntries "todos" (some "todos") =
        chosen.map (fun nd =>
          ⟨pathJoin "todos" nd.name, nd.contentD, nd.contentD, nd.mtime⟩) ∧
      chosen.length = 10 ∧ (chosen ++ rest).Perm todosEntries ∧
      (∀ x ∈ chosen, ∀ y ∈ rest, y.mtime < x.mtime)) ∧
    (∃ chosen rest : List SessionCandidate,
      traverseDir (fun s => s) 2 projectsEntriesEx "projects" (some "projects") =
        chosen.map (fun cnd =>
          ⟨cnd.relPath, cnd.content.getD "", cnd.content.getD "", cnd.mtime⟩) ∧
      chosen.length = 10 ∧
      (chosen ++ rest).Perm (allProjectSessions projectsEntriesEx) ∧
      (∀ x ∈ chosen, ∀ y ∈ rest, y.mtime < x.mtime)) :=
  ⟨(inventory_retention_truncation (fun s => s)).1 1 todosEntries "todos" "todos"
      (by decide) (by decide) (by decide) (by decide),
    (inventory_retention_truncation (fun s => s)).2.1 1 projectsEntriesEx "projects"
      (by decide) (by decide) (by decide)⟩
